import Mathlib

/-!
In-memory history stack (`src/modules/createMemoryHistory.js`).

A shallow embedding of `createMemoryHistory`: the record it returns, the
operations `push`, `replace`, `go`, `goBack`, `goForward`, `canGo`, and the
construction of the initial record from `props`.

Conventions of the embedding:

* JavaScript numbers that hold indices are `Int`; `entries.length` is a `Nat`.
* A JavaScript value that may be `undefined` is an `Option`; the elements of
  `history.entries` are `Option L`, so that an array slot that was never
  written (a hole) reads as `none`, exactly like an out-of-range read.
* `L` is the type of location values built by `createLocation`
  (`LocationUtils` is an import of the module, it is a parameter here).
* The functions of the source that call back (`confirmTransitionTo`,
  `getUserConfirmation`, `getConfirmation`) are written in continuation
  style over `Eff σ = σ → Except (String × σ) σ`: a callback is a state
  transformer; an exception thrown by `invariant` is `Except.error` and
  carries its message and the state as it is at the throw, since an
  exception does not undo what was written before it.
* `warning(...)` only writes to the console and is left out.
-/

namespace MemoryHistory

/-! ## Data model -/

/-- The action tags `'POP'`, `'PUSH'`, `'REPLACE'`. -/
inductive Action where
  | POP
  | PUSH
  | REPLACE
  deriving DecidableEq, Repr

/-- The state payload that travels with a location; its content is never inspected. -/
abbrev StateValue := String

/-- A location-like object as a caller may pass it to `push`, `replace` or in
`initialEntries`: the fields the module itself reads are `state` and `key`. -/
structure LocationLike where
  pathname : String
  state : Option StateValue
  key : Option String
  deriving DecidableEq, Repr

/-- The first argument of `push` and `replace`, and an element of
`initialEntries`: a path string (`typeof entry === 'string'`) or an object. -/
inductive PathArg where
  | str (path : String)
  | obj (o : LocationLike)
  deriving DecidableEq, Repr

/-- The data fields of the object literal `history` (source lines 165-170). -/
structure History (L : Type) where
  length : Nat
  action : Action
  location : Option L
  index : Int
  entries : List (Option L)
  deriving DecidableEq, Repr

/-- The argument of `setState`: the properties that `Object.assign` copies
onto `history`. A property that is absent is `none`; `location` may be
present with the value `undefined`, hence the nested option. -/
structure Patch (L : Type) where
  action : Option Action := none
  location : Option (Option L) := none
  index : Option Int := none
  entries : Option (List (Option L)) := none

/-- Modelled from the spec: the blocking prompt held by the transition
manager (`createTransitionManager` is not part of the sources). Per the spec
a prompt is a string message, or a function of the location and the action
that computes the message or yields `false` (here `none`). -/
inductive Prompt (L : Type) where
  | message (m : String)
  | compute (f : Option L → Action → Option String)

/-- The mutable state behind one history object: the record itself, and the
state of its transition manager. `prompt = none` is "no blocking prompt";
`notified` lists the calls made to `notifyListeners`, oldest first. -/
structure Store (L : Type) where
  history : History L
  prompt : Option (Prompt L)
  notified : List (Option L × Action)

/-- A computation on a state `σ` that may throw: it returns the final state,
or the message of the exception together with the state as it is at the
throw (whatever ran before the throw has left its writes in that state). -/
abbrev Eff (σ : Type) := σ → Except (String × σ) σ

/-- The type of `getUserConfirmation(message, callback)`. -/
abbrev Confirm (σ : Type) := String → (Bool → Eff σ) → Eff σ

/-- The imports of the module and the host environment, as parameters. -/
structure Collaborators (L : Type) where
  /-- The function `createLocation(path, state, key, currentLocation)` of `LocationUtils`. -/
  createLocation : PathArg → Option StateValue → String → Option L → L
  /-- The function `stripBasename(path, basename)` of `PathUtils`. -/
  stripBasename : PathArg → String → PathArg
  /-- The function `addLeadingSlash(path)` of `PathUtils`. -/
  addLeadingSlash : String → String
  /-- The function `stripTrailingSlash(path)` of `PathUtils`. -/
  stripTrailingSlash : String → String
  /-- The method `transitionManager.confirmTransitionTo(location, action, getUserConfirmation, callback)`. -/
  confirmTransitionTo :
    Option L → Action → Confirm (Store L) → (Bool → Eff (Store L)) → Eff (Store L)
  /-- Whether `window` and `window.confirm` are defined (source lines 15-17). -/
  hasConfirm : Bool
  /-- The answer of `window.confirm(message)`. -/
  windowConfirm : String → Bool

/-- The options object `props` of `createMemoryHistory`; an absent property is `none`. -/
structure Props (L : Type) where
  getUserConfirmation : Option (Confirm (Store L)) := none
  initialEntries : Option (List PathArg) := none
  initialIndex : Option Int := none
  keyLength : Option Nat := none
  basename : Option String := none

/-- The constants that the methods of one history object close over. -/
structure Config (L : Type) where
  getUserConfirmation : Confirm (Store L)
  keyLength : Nat
  basename : String

/-! ## Helpers of the module and of the JavaScript runtime -/

/-- Source lines 12-13: `Math.min(Math.max(n, lowerBound), upperBound)`. -/
def clamp (n lowerBound upperBound : Int) : Int :=
  min (max n lowerBound) upperBound

/-- Array read `xs[i]`: `undefined` outside `0 .. xs.length - 1` and on a hole. -/
def getAt {α : Type} (xs : List (Option α)) (i : Int) : Option α :=
  if i < 0 then none
  else
    match xs.get? i.toNat with
    | some v => v
    | none => none

/-- Array write `xs[i] = v` on the elements of the array: inside the array the
slot is overwritten, past the end the array grows and the slots in between
are holes. A negative `i` names a property that is not an element, so the
elements and the length stay as they are (the model does not keep such
properties). -/
def arraySet {α : Type} (xs : List (Option α)) (i : Int) (v : Option α) : List (Option α) :=
  if i < 0 then xs
  else if i.toNat < xs.length then xs.set i.toNat v
  else xs ++ List.replicate (i.toNat - xs.length) none ++ [v]

/-- The call `xs.splice(start, deleteCount, item)`: a negative `start` counts from the
end, `deleteCount` is clamped to what is left after `start`. -/
def splice {α : Type} (xs : List α) (start deleteCount : Int) (item : α) : List α :=
  let len : Int := xs.length
  let actualStart : Int := if start < 0 then max (len + start) 0 else min start len
  let actualDelete : Int := min (max deleteCount 0) (len - actualStart)
  xs.take actualStart.toNat ++ item :: xs.drop (actualStart + actualDelete).toNat

/-- The call `xs.push(item)`. -/
def arrayPush {α : Type} (xs : List α) (item : α) : List α :=
  xs ++ [item]

/-- Source lines 22-23: the message of the `invariant` in `getConfirmation`. -/
def invariantMessage : String :=
  "Environment needs a window + window.confirm function. You can provide" ++
    "your own confirmation UI via the getUserConfirmation option."

/-- Source lines 19-27: `invariant(hasConfirm, ...)` throws when the
environment has no `window.confirm`, before anything else is done: the state
at the throw is the state received. Otherwise the function returns what the
callback returns on the answer of `window.confirm(message)`. -/
def getConfirmation {σ : Type} (hasConfirm : Bool) (windowConfirm : String → Bool) :
    Confirm σ :=
  fun message callback s =>
    if hasConfirm then callback (windowConfirm message) s
    else Except.error (invariantMessage, s)

/-- Source lines 55-56: `Math.random().toString(36).substr(2, keyLength)`,
where `rnd` is the string `Math.random().toString(36)`. -/
def createKey (keyLength : Nat) (rnd : String) : String :=
  (rnd.drop 2).take keyLength

/-- Source lines 60-61: `basename ? stripBasename(path, basename) : path`. -/
def getStrippedPath {L : Type} (c : Collaborators L) (basename : String) (path : PathArg) :
    PathArg :=
  if basename ≠ "" then c.stripBasename path basename else path

/-- The call `Object.assign(history, nextState)` on the data fields. -/
def assign {L : Type} (h : History L) (p : Patch L) : History L :=
  { length := h.length
    action := p.action.getD h.action
    location := p.location.getD h.location
    index := p.index.getD h.index
    entries := p.entries.getD h.entries }

/-- Source lines 44-53. `setState()` without argument is `setState s {}`. -/
def setState {L : Type} (s : Store L) (nextState : Patch L) : Store L :=
  let h1 := assign s.history nextState
  let h2 : History L := { h1 with length := h1.entries.length }
  { history := h2
    prompt := s.prompt
    notified := s.notified ++ [(h2.location, h2.action)] }

/-! ## Construction -/

/-- Source line 40 and the defaults of lines 33-38. -/
def config {L : Type} (c : Collaborators L) (props : Props L) : Config L :=
  { getUserConfirmation :=
      props.getUserConfirmation.getD (getConfirmation c.hasConfirm c.windowConfirm)
    keyLength := props.keyLength.getD 6
    basename :=
      match props.basename with
      | some b => if b ≠ "" then c.stripTrailingSlash (c.addLeadingSlash b) else ""
      | none => "" }

/-- The default of `initialEntries`: `[ '/' ]`. -/
def initialEntriesOf {L : Type} (props : Props L) : List PathArg :=
  props.initialEntries.getD [PathArg.str "/"]

/-- The default of `initialIndex`: `0`. -/
def initialIndexOf {L : Type} (props : Props L) : Int :=
  props.initialIndex.getD 0

/-- Source lines 63-67, `initialEntries.map(...)`. `rand k` is the string of
the `k`-th call of `Math.random()`, `k` counts the calls made so far: an
object entry with a truthy key makes none. -/
def mapEntries {L : Type} (c : Collaborators L) (cfg : Config L) (rand : Nat → String) :
    List PathArg → Nat → List (Option L)
  | [], _ => []
  | PathArg.str p :: rest, k =>
      some (c.createLocation (getStrippedPath c cfg.basename (PathArg.str p)) none
        (createKey cfg.keyLength (rand k)) none) :: mapEntries c cfg rand rest (k + 1)
  | PathArg.obj o :: rest, k =>
      match o.key with
      | some key =>
          if key ≠ "" then
            some (c.createLocation (getStrippedPath c cfg.basename (PathArg.obj o)) none
              key none) :: mapEntries c cfg rand rest k
          else
            some (c.createLocation (getStrippedPath c cfg.basename (PathArg.obj o)) none
              (createKey cfg.keyLength (rand k)) none) :: mapEntries c cfg rand rest (k + 1)
      | none =>
          some (c.createLocation (getStrippedPath c cfg.basename (PathArg.obj o)) none
            (createKey cfg.keyLength (rand k)) none) :: mapEntries c cfg rand rest (k + 1)

/-- The number of calls of `createKey` that `initialEntries.map` makes for
the given entries (source lines 63-67): one for a string, one for an object
whose key is absent or falsy, none for an object with a truthy key. -/
def keyDraws : List PathArg → Nat
  | [] => 0
  | PathArg.str _ :: rest => keyDraws rest + 1
  | PathArg.obj o :: rest =>
      match o.key with
      | some key => if key ≠ "" then keyDraws rest else keyDraws rest + 1
      | none => keyDraws rest + 1

/-- Source lines 32-67 and 165-182: the state of a freshly created history.
The transition manager starts without prompt and has notified nobody. -/
def createMemoryHistory {L : Type} (c : Collaborators L) (props : Props L)
    (rand : Nat → String) : Store L :=
  let initialEntries := initialEntriesOf props
  let index := clamp (initialIndexOf props) 0 ((initialEntries.length : Int) - 1)
  let entries := mapEntries c (config c props) rand initialEntries 0
  { history :=
      { length := entries.length
        action := Action.POP
        location := getAt entries index
        index := index
        entries := entries }
    prompt := none
    notified := [] }

/-! ## Operations -/

/-- Source lines 84-104: the callback that `push` hands to `confirmTransitionTo`. -/
def pushCallback {L : Type} (location : L) (ok : Bool) (s : Store L) : Store L :=
  if !ok then s
  else
    let prevIndex := s.history.index
    let nextIndex := prevIndex + 1
    let nextEntries := s.history.entries
    let nextEntries :=
      if (nextEntries.length : Int) > nextIndex then
        splice nextEntries nextIndex ((nextEntries.length : Int) - nextIndex) (some location)
      else
        arrayPush nextEntries (some location)
    setState s
      { action := some Action.PUSH
        location := some (some location)
        index := some nextIndex
        entries := some nextEntries }

/-- Source lines 117-124: the callback that `replace` hands to `confirmTransitionTo`. -/
def replaceCallback {L : Type} (location : L) (ok : Bool) (s : Store L) : Store L :=
  if !ok then s
  else
    let s1 : Store L :=
      { s with
        history :=
          { s.history with
            entries := arraySet s.history.entries s.history.index (some location) } }
    setState s1 { action := some Action.REPLACE, location := some (some location) }

/-- Source lines 133-145: the callback that `go` hands to `confirmTransitionTo`. -/
def goCallback {L : Type} (location : Option L) (nextIndex : Int) (ok : Bool) (s : Store L) :
    Store L :=
  if ok then
    setState s
      { action := some Action.POP
        location := some location
        index := some nextIndex }
  else
    setState s {}

/-- The location that `push` and `replace` build before asking for
confirmation (source lines 82 and 115); `rnd` is the draw of `createKey`. -/
def newLocation {L : Type} (c : Collaborators L) (cfg : Config L) (path : PathArg)
    (state : Option StateValue) (rnd : String) (s : Store L) : L :=
  c.createLocation (getStrippedPath c cfg.basename path) state (createKey cfg.keyLength rnd)
    s.history.location

/-- Source lines 74-105. -/
def push {L : Type} (c : Collaborators L) (cfg : Config L) (path : PathArg)
    (state : Option StateValue) (rnd : String) : Eff (Store L) :=
  fun s =>
    let action := Action.PUSH
    let location := newLocation c cfg path state rnd s
    c.confirmTransitionTo (some location) action cfg.getUserConfirmation
      (fun ok t => Except.ok (pushCallback location ok t)) s

/-- Source lines 107-125. -/
def replace {L : Type} (c : Collaborators L) (cfg : Config L) (path : PathArg)
    (state : Option StateValue) (rnd : String) : Eff (Store L) :=
  fun s =>
    let action := Action.REPLACE
    let location := newLocation c cfg path state rnd s
    c.confirmTransitionTo (some location) action cfg.getUserConfirmation
      (fun ok t => Except.ok (replaceCallback location ok t)) s

/-- Source line 128: the index that `go(n)` computes before asking. -/
def goIndex {L : Type} (h : History L) (n : Int) : Int :=
  clamp (h.index + n) 0 ((h.entries.length : Int) - 1)

/-- Source lines 127-146. -/
def go {L : Type} (c : Collaborators L) (cfg : Config L) (n : Int) : Eff (Store L) :=
  fun s =>
    let nextIndex := goIndex s.history n
    let action := Action.POP
    let location := getAt s.history.entries nextIndex
    c.confirmTransitionTo location action cfg.getUserConfirmation
      (fun ok t => Except.ok (goCallback location nextIndex ok t)) s

/-- Source lines 148-149. -/
def goBack {L : Type} (c : Collaborators L) (cfg : Config L) : Eff (Store L) :=
  go c cfg (-1)

/-- Source lines 151-152. -/
def goForward {L : Type} (c : Collaborators L) (cfg : Config L) : Eff (Store L) :=
  go c cfg 1

/-- Source lines 154-157. -/
def canGo {L : Type} (h : History L) (n : Int) : Bool :=
  let nextIndex := h.index + n
  decide (nextIndex ≥ 0) && decide (nextIndex < (h.entries.length : Int))

/-- Modelled from the spec: `block(prompt)` hands the prompt to the transition
manager (`setPrompt` is not part of the sources); `false` unblocks. -/
def block {L : Type} (prompt : Option (Prompt L)) (s : Store L) : Store L :=
  { s with prompt := prompt }

/-! ## Requests, runs and interleavings -/

/-- The variables that the callback of a requested transition closes over:
`location` for `push` and `replace`, `location` and `nextIndex` for `go`. -/
inductive Pending (L : Type) where
  | push (location : L)
  | replace (location : L)
  | go (location : Option L) (nextIndex : Int)
  deriving DecidableEq, Repr

/-- The callback of a requested transition, run on the store as it is when
the callback is invoked. -/
def Pending.callback {L : Type} : Pending L → Bool → Store L → Store L
  | Pending.push location, ok, s => pushCallback location ok s
  | Pending.replace location, ok, s => replaceCallback location ok s
  | Pending.go location nextIndex, ok, s => goCallback location nextIndex ok s

/-- The location that the request hands to `confirmTransitionTo`. -/
def Pending.location {L : Type} : Pending L → Option L
  | Pending.push location => some location
  | Pending.replace location => some location
  | Pending.go location _ => location

/-- The action that the request hands to `confirmTransitionTo`. -/
def Pending.action {L : Type} : Pending L → Action
  | Pending.push _ => Action.PUSH
  | Pending.replace _ => Action.REPLACE
  | Pending.go _ _ => Action.POP

/-- One navigation call with its arguments; `rnd` is the draw of `createKey`. -/
inductive Call where
  | push (path : PathArg) (state : Option StateValue) (rnd : String)
  | replace (path : PathArg) (state : Option StateValue) (rnd : String)
  | go (n : Int)
  | goBack
  | goForward
  deriving DecidableEq, Repr

/-- The part of a call that runs before `confirmTransitionTo` is invoked:
it reads the store and fixes what the callback will install. -/
def Call.request {L : Type} (c : Collaborators L) (cfg : Config L) : Call → Store L → Pending L
  | Call.push path state rnd, s => Pending.push (newLocation c cfg path state rnd s)
  | Call.replace path state rnd, s => Pending.replace (newLocation c cfg path state rnd s)
  | Call.go n, s => Pending.go (getAt s.history.entries (goIndex s.history n)) (goIndex s.history n)
  | Call.goBack, s =>
      Pending.go (getAt s.history.entries (goIndex s.history (-1))) (goIndex s.history (-1))
  | Call.goForward, s =>
      Pending.go (getAt s.history.entries (goIndex s.history 1)) (goIndex s.history 1)

/-- Whether the call is `go`, `goBack` or `goForward`. -/
def Call.isGo : Call → Bool
  | Call.go _ => true
  | Call.goBack => true
  | Call.goForward => true
  | _ => false

/-- The method that a call invokes. -/
def Call.run {L : Type} (c : Collaborators L) (cfg : Config L) : Call → Eff (Store L)
  | Call.push path state rnd => MemoryHistory.push c cfg path state rnd
  | Call.replace path state rnd => MemoryHistory.replace c cfg path state rnd
  | Call.go n => MemoryHistory.go c cfg n
  | Call.goBack => MemoryHistory.goBack c cfg
  | Call.goForward => MemoryHistory.goForward c cfg

/-- A sequence of calls, each finished before the next one starts; an
exception ends the run. -/
def runCalls {L : Type} (c : Collaborators L) (cfg : Config L) : List Call → Eff (Store L)
  | [] => fun s => Except.ok s
  | k :: ks => fun s =>
      match k.run c cfg s with
      | Except.ok t => runCalls c cfg ks t
      | Except.error e => Except.error e

/-- A history whose confirmations are asynchronous: the store together with
the transitions that were requested and are not resolved yet, oldest first. -/
structure Machine (L : Type) where
  store : Store L
  pending : List (Pending L)

/-- What can happen to a history with asynchronous confirmation: a
navigation call is made (its transition becomes pending), or the `i`-th
pending transition is resolved with the answer `ok`. -/
inductive Event where
  | call (k : Call)
  | resolve (i : Nat) (ok : Bool)
  deriving DecidableEq, Repr

/-- One event of a history with asynchronous confirmation. -/
def Machine.step {L : Type} (c : Collaborators L) (cfg : Config L) (m : Machine L) :
    Event → Machine L
  | Event.call k => { store := m.store, pending := m.pending ++ [k.request c cfg m.store] }
  | Event.resolve i ok =>
      match m.pending.get? i with
      | some p => { store := p.callback ok m.store, pending := m.pending.eraseIdx i }
      | none => m

/-- A sequence of events, oldest first. -/
def Machine.steps {L : Type} (c : Collaborators L) (cfg : Config L) :
    Machine L → List Event → Machine L
  | m, [] => m
  | m, e :: es => Machine.steps c cfg (m.step c cfg e) es

/-- The method `canGo` as a call on a history with asynchronous confirmation:
the answer, and the history after the call. -/
def Machine.canGo {L : Type} (m : Machine L) (n : Int) : Bool × Machine L :=
  (MemoryHistory.canGo m.store.history n, m)

/-! ## Properties of states and of the transition manager -/

/-- The index points into the entries. -/
def InRange {L : Type} (h : History L) : Prop :=
  0 ≤ h.index ∧ h.index < (h.entries.length : Int)

/-- The invariants of the stack: `length` is the number of entries, the
index is in range, and `location` is the entry at the index. -/
def WellFormed {L : Type} (h : History L) : Prop :=
  h.length = h.entries.length ∧ 0 ≤ h.index ∧ h.index < (h.length : Int) ∧
    h.location = getAt h.entries h.index

instance instDecidableWellFormed {L : Type} [DecidableEq L] (h : History L) :
    Decidable (WellFormed h) := by
  unfold WellFormed
  infer_instance

/-- The transition manager answers a request made in store `s` at once, with
`ok`: it invokes the callback it was given on `s` with `ok`. -/
def Resolves {L : Type} (c : Collaborators L) (cfg : Config L) (location : Option L)
    (action : Action) (s : Store L) (ok : Bool) : Prop :=
  ∀ callback : Bool → Eff (Store L),
    c.confirmTransitionTo location action cfg.getUserConfirmation callback s = callback ok s

/-- The transition manager answers every request at once, one way or the other. -/
def Synchronous {L : Type} (c : Collaborators L) (cfg : Config L) : Prop :=
  ∀ (location : Option L) (action : Action) (s : Store L),
    ∃ ok : Bool, Resolves c cfg location action s ok

/-- A pending transition that still fits the entries of `h`: the index that a
`go` has fixed is in range and its location is the entry at that index. -/
def Pending.Fits {L : Type} (p : Pending L) (h : History L) : Prop :=
  match p with
  | Pending.go location nextIndex =>
      0 ≤ nextIndex ∧ nextIndex < (h.entries.length : Int) ∧
        location = getAt h.entries nextIndex
  | _ => True

/-- A confirmation function that rejects every transition. -/
def alwaysReject {σ : Type} : Confirm σ :=
  fun _ callback => callback false

/-- A confirmation function that approves every transition. -/
def alwaysApprove {σ : Type} : Confirm σ :=
  fun _ callback => callback true

/-- Modelled from the spec: `confirmTransitionTo` of the transition manager
(`createTransitionManager` is not part of the sources). It "invokes
`confirmFn(message, proceedCallback)` only if a blocking prompt is set;
otherwise approves immediately". The spec does not say what is decided when
a prompt function yields `false` instead of a message: that decision is the
parameter `whenFalse`. -/
def specConfirmTransitionTo {L : Type} (whenFalse : Bool) :
    Option L → Action → Confirm (Store L) → (Bool → Eff (Store L)) → Eff (Store L) :=
  fun location action getUserConfirmation callback s =>
    match s.prompt with
    | none => callback true s
    | some (Prompt.message m) => getUserConfirmation m callback s
    | some (Prompt.compute f) =>
        match f location action with
        | some m => getUserConfirmation m callback s
        | none => callback whenFalse s

/-- The prompt yields a message for every transition. -/
def Prompt.Blocking {L : Type} : Option (Prompt L) → Prop
  | none => False
  | some (Prompt.message _) => True
  | some (Prompt.compute f) => ∀ location action, (f location action).isSome

/-! ## Sample collaborators for concrete instances -/

/-- Sample collaborators: a location is its path string, there is no
basename handling, the transition manager is the one modelled from the spec,
the environment has no `window.confirm`. -/
def sample : Collaborators String :=
  { createLocation := fun path _ _ _ =>
      match path with
      | PathArg.str p => p
      | PathArg.obj o => o.pathname
    stripBasename := fun path _ => path
    addLeadingSlash := fun b => b
    stripTrailingSlash := fun b => b
    confirmTransitionTo := specConfirmTransitionTo true
    hasConfirm := false
    windowConfirm := fun _ => false }

/-- Sample collaborators whose location is the pair of the path and the key
it was built with; the rest is as in `sample`. -/
def keyed : Collaborators (String × String) :=
  { createLocation := fun path _ key _ =>
      match path with
      | PathArg.str p => (p, key)
      | PathArg.obj o => (o.pathname, key)
    stripBasename := fun path _ => path
    addLeadingSlash := fun b => b
    stripTrailingSlash := fun b => b
    confirmTransitionTo := specConfirmTransitionTo true
    hasConfirm := false
    windowConfirm := fun _ => false }

/-- Sample collaborators whose transition manager keeps every request for
later: it returns without invoking the callback. -/
def deferring : Collaborators String :=
  { createLocation := sample.createLocation
    stripBasename := sample.stripBasename
    addLeadingSlash := sample.addLeadingSlash
    stripTrailingSlash := sample.stripTrailingSlash
    confirmTransitionTo := fun _ _ _ _ s => Except.ok s
    hasConfirm := false
    windowConfirm := fun _ => false }

/-- A callback that records the answers it receives, oldest first. -/
def recordAnswer : Bool → Eff (List Bool) :=
  fun answer log => Except.ok (log ++ [answer])

/-- A callback that records the answer it receives and then throws. -/
def recordAndThrow : Bool → Eff (List Bool) :=
  fun answer log => Except.error ("callback invoked", log ++ [answer])

/-- Sample draws of `Math.random().toString(36)`. -/
def sampleRand : Nat → String :=
  fun _ => "0.4fzyo82mvyr"

/-- Sample draws that differ from one call of `Math.random()` to the next. -/
def sampleDraws : Nat → String :=
  fun k => if k = 0 then "0.4fzyo82mvyr" else "0.9x1c7qpl2ab"

/-- Sample options for `keyed`: the given initial entries, defaults otherwise. -/
def keyedProps (entries : List PathArg) : Props (String × String) :=
  { initialEntries := some entries }

/-- Sample options: the given entries and index, a confirmation function that
rejects. -/
def sampleProps (entries : List String) (index : Int) : Props String :=
  { getUserConfirmation := some alwaysReject
    initialEntries := some (entries.map PathArg.str)
    initialIndex := some index }

/-- Sample store: the history created from the given entries and index. -/
def sampleStore (entries : List String) (index : Int) : Store String :=
  createMemoryHistory sample (sampleProps entries index) sampleRand

/-- Sample store behind a blocking prompt: the confirmation function is
consulted for every transition. -/
def sampleBlocked (entries : List String) (index : Int) : Store String :=
  block (some (Prompt.message "Leave?")) (sampleStore entries index)

/-- Sample constants of the methods. -/
def sampleConfig : Config String :=
  config sample (sampleProps [] 0)

/-- Sample interleaving: `go(2)` is requested, then `push('/d')` is requested
and approved, then the `go` is approved. -/
def staleGoEvents : List Event :=
  [Event.call (Call.go 2), Event.call (Call.push (PathArg.str "/d") none "0.k3x9"),
    Event.resolve 1 true, Event.resolve 0 true]

/-- Sample interleaving: `go(2)` is requested, then `go(1)` is requested and
approved; the first `go` is still pending. -/
def overlappingGoEvents : List Event :=
  [Event.call (Call.go 2), Event.call (Call.go 1), Event.resolve 1 true]

end MemoryHistory

namespace MemoryHistory

/-! ## Auxiliary facts -/

theorem clamp_eq (n lo hi : Int) : clamp n lo hi = min (max n lo) hi := rfl

theorem clamp_range (n len : Int) (h : 0 < len) :
    0 ≤ clamp n 0 (len - 1) ∧ clamp n 0 (len - 1) < len := by
  unfold clamp
  omega

theorem getAt_of_lt {α : Type} (xs : List (Option α)) (i : Nat) (h : i < xs.length) :
    getAt xs (i : Int) = xs.get ⟨i, h⟩ := by
  unfold getAt
  have hneg : ¬ ((i : Int) < 0) := by omega
  simp [hneg, List.getElem?_eq_getElem h]

theorem getAt_take_append {α : Type} (xs : List (Option α)) (k : Nat) (v : Option α)
    (hk : k ≤ xs.length) : getAt (xs.take k ++ [v]) (k : Int) = v := by
  unfold getAt
  have hneg : ¬ ((k : Int) < 0) := by omega
  have hlen : (xs.take k).length = k := by simp [List.length_take, hk]
  simp [hneg, List.getElem?_append_right, hlen]

theorem getAt_take_append_lt {α : Type} (xs : List (Option α)) (k : Nat) (v : Option α)
    (j : Int) (hk : k ≤ xs.length) (hj : j < (k : Int)) :
    getAt (xs.take k ++ [v]) j = getAt xs j := by
  unfold getAt
  by_cases hneg : j < 0
  · simp [hneg]
  · have hlt : j.toNat < k := by omega
    have h1 : j.toNat < (xs.take k).length := by simp [List.length_take]; omega
    simp [hneg, List.getElem?_append_left h1, List.getElem?_take, hlt]

theorem getAt_arraySet_self {α : Type} (xs : List (Option α)) (i : Int) (v : Option α)
    (h0 : 0 ≤ i) (h1 : i < (xs.length : Int)) : getAt (arraySet xs i v) i = v := by
  unfold getAt arraySet
  have hneg : ¬ (i < 0) := by omega
  have hlt : i.toNat < xs.length := by omega
  simp [hneg, hlt]

theorem getAt_arraySet_other {α : Type} (xs : List (Option α)) (i j : Int) (v : Option α)
    (h0 : 0 ≤ i) (h1 : i < (xs.length : Int)) (hij : j ≠ i) :
    getAt (arraySet xs i v) j = getAt xs j := by
  unfold getAt arraySet
  have hneg : ¬ (i < 0) := by omega
  have hlt : i.toNat < xs.length := by omega
  by_cases hj : j < 0
  · simp [hj]
  · have hne : i.toNat ≠ j.toNat := by omega
    simp [hneg, hlt, hj, List.getElem?_set_ne hne]

theorem length_arraySet {α : Type} (xs : List (Option α)) (i : Int) (v : Option α)
    (h0 : 0 ≤ i) (h1 : i < (xs.length : Int)) : (arraySet xs i v).length = xs.length := by
  unfold arraySet
  have hneg : ¬ (i < 0) := by omega
  have hlt : i.toNat < xs.length := by omega
  simp [hneg, hlt]

theorem splice_tail {α : Type} (xs : List α) (k : Int) (v : α) (h0 : 0 ≤ k)
    (h1 : k < (xs.length : Int)) :
    splice xs k ((xs.length : Int) - k) v = xs.take k.toNat ++ [v] := by
  have hs : ¬ (k < 0) := by omega
  have e1 : min k (xs.length : Int) = k := by omega
  have e2 : min (max ((xs.length : Int) - k) 0) ((xs.length : Int) - k)
      = (xs.length : Int) - k := by omega
  have e3 : (k + ((xs.length : Int) - k)).toNat = xs.length := by omega
  simp only [splice, hs, if_false, e1, e2, e3, List.drop_length]

theorem pushCallback_false {L : Type} (location : L) (s : Store L) :
    pushCallback location false s = s := rfl

theorem replaceCallback_false {L : Type} (location : L) (s : Store L) :
    replaceCallback location false s = s := rfl

theorem pushCallback_entries {L : Type} (location : L) (s : Store L)
    (h : InRange s.history) :
    (pushCallback location true s).history.entries
      = s.history.entries.take (s.history.index + 1).toNat ++ [some location] := by
  obtain ⟨h0, h1⟩ := h
  by_cases hgt : (s.history.entries.length : Int) > s.history.index + 1
  · have hsp := splice_tail s.history.entries (s.history.index + 1) (some location)
      (by omega) (by omega)
    simp [pushCallback, setState, assign, hgt, hsp]
  · have hlen : (s.history.index + 1).toNat = s.history.entries.length := by omega
    simp [pushCallback, setState, assign, hgt, arrayPush, hlen]

theorem pushCallback_fields {L : Type} (location : L) (s : Store L) :
    (pushCallback location true s).history.index = s.history.index + 1 ∧
      (pushCallback location true s).history.action = Action.PUSH ∧
      (pushCallback location true s).history.location = some location ∧
      (pushCallback location true s).history.length
        = (pushCallback location true s).history.entries.length := by
  simp [pushCallback, setState, assign]

theorem replaceCallback_history {L : Type} (location : L) (s : Store L) :
    (replaceCallback location true s).history =
      { length := (arraySet s.history.entries s.history.index (some location)).length
        action := Action.REPLACE
        location := some location
        index := s.history.index
        entries := arraySet s.history.entries s.history.index (some location) } := by
  simp [replaceCallback, setState, assign]

theorem goCallback_true_history {L : Type} (location : Option L) (nextIndex : Int)
    (s : Store L) :
    (goCallback location nextIndex true s).history =
      { length := s.history.entries.length
        action := Action.POP
        location := location
        index := nextIndex
        entries := s.history.entries } := by
  simp [goCallback, setState, assign]

theorem goCallback_false_history {L : Type} (location : Option L) (nextIndex : Int)
    (s : Store L) :
    (goCallback location nextIndex false s).history =
      { length := s.history.entries.length
        action := s.history.action
        location := s.history.location
        index := s.history.index
        entries := s.history.entries } := by
  simp [goCallback, setState, assign]

theorem goIndex_range {L : Type} (h : History L) (n : Int) (hpos : 0 < h.entries.length) :
    0 ≤ goIndex h n ∧ goIndex h n < (h.entries.length : Int) := by
  unfold goIndex
  exact clamp_range _ _ (by omega)

theorem wellFormed_pushCallback {L : Type} (location : L) (ok : Bool) (s : Store L)
    (h : WellFormed s.history) : WellFormed (pushCallback location ok s).history := by
  cases ok with
  | false => exact h
  | true =>
    obtain ⟨hlen, h0, h1, _⟩ := h
    have hr : InRange s.history := ⟨h0, by omega⟩
    have he := pushCallback_entries location s hr
    obtain ⟨fi, _, fl, fn⟩ := pushCallback_fields location s
    have hk : (s.history.index + 1).toNat ≤ s.history.entries.length := by omega
    have hcard : (pushCallback location true s).history.entries.length
        = (s.history.index + 1).toNat + 1 := by
      rw [he]
      simp [List.length_take, hk]
    refine ⟨fn, by omega, by omega, ?_⟩
    rw [fl, fi, he]
    have hcast : s.history.index + 1 = (((s.history.index + 1).toNat : Nat) : Int) := by omega
    rw [hcast]
    exact (getAt_take_append _ _ _ hk).symm

theorem wellFormed_replaceCallback {L : Type} (location : L) (ok : Bool) (s : Store L)
    (h : WellFormed s.history) : WellFormed (replaceCallback location ok s).history := by
  cases ok with
  | false => exact h
  | true =>
    obtain ⟨hlen, h0, h1, _⟩ := h
    have h2 : s.history.index < (s.history.entries.length : Int) := by omega
    rw [replaceCallback_history]
    refine ⟨rfl, h0, ?_, ?_⟩
    · simp only [length_arraySet _ _ _ h0 h2]
      exact h2
    · exact (getAt_arraySet_self _ _ _ h0 h2).symm

theorem wellFormed_goCallback {L : Type} (location : Option L) (nextIndex : Int) (ok : Bool)
    (s : Store L) (h : WellFormed s.history)
    (hfit : (Pending.go location nextIndex).Fits s.history) :
    WellFormed (goCallback location nextIndex ok s).history := by
  obtain ⟨hlen, h0, h1, hloc⟩ := h
  cases ok with
  | false =>
    rw [goCallback_false_history]
    exact ⟨rfl, h0, by simpa [hlen] using h1, hloc⟩
  | true =>
    obtain ⟨f0, f1, floc⟩ := hfit
    rw [goCallback_true_history]
    exact ⟨rfl, f0, f1, floc⟩

theorem wellFormed_callback {L : Type} (p : Pending L) (ok : Bool) (s : Store L)
    (h : WellFormed s.history) (hfit : p.Fits s.history) :
    WellFormed (p.callback ok s).history := by
  cases p with
  | push location => exact wellFormed_pushCallback location ok s h
  | replace location => exact wellFormed_replaceCallback location ok s h
  | go location nextIndex => exact wellFormed_goCallback location nextIndex ok s h hfit

theorem fits_go_of_entries {L : Type} (h0 h : History L) (n : Int)
    (he : h0.entries = h.entries) (hpos : 0 < h.entries.length) :
    (Pending.go (getAt h0.entries (goIndex h0 n)) (goIndex h0 n)).Fits h := by
  have hr := goIndex_range h0 n (by rw [he]; exact hpos)
  refine ⟨hr.1, ?_, ?_⟩
  · rw [← he]; exact hr.2
  · rw [he]

theorem fits_request {L : Type} (c : Collaborators L) (cfg : Config L) (k : Call)
    (s0 s : Store L) (he : s0.history.entries = s.history.entries)
    (hpos : 0 < s.history.entries.length) : (k.request c cfg s0).Fits s.history := by
  cases k with
  | push path state rnd => exact True.intro
  | replace path state rnd => exact True.intro
  | go n => exact fits_go_of_entries s0.history s.history n he hpos
  | goBack => exact fits_go_of_entries s0.history s.history (-1) he hpos
  | goForward => exact fits_go_of_entries s0.history s.history 1 he hpos

theorem wellFormed_pos {L : Type} (h : History L) (hw : WellFormed h) :
    0 < h.entries.length := by
  obtain ⟨hlen, h0, h1, _⟩ := hw
  omega

/-- A call run through a transition manager that answers at once is the
callback of its request applied to the answer. -/
theorem run_of_resolves {L : Type} (c : Collaborators L) (cfg : Config L) (k : Call)
    (s : Store L) (ok : Bool)
    (h : Resolves c cfg (k.request c cfg s).location (k.request c cfg s).action s ok) :
    k.run c cfg s = Except.ok ((k.request c cfg s).callback ok s) := by
  cases k with
  | push path state rnd => exact h _
  | replace path state rnd => exact h _
  | go n => exact h _
  | goBack => exact h _
  | goForward => exact h _

theorem resolves_spec_reject {L : Type} (c : Collaborators L) (cfg : Config L) (w : Bool)
    (s : Store L) (hc : c.confirmTransitionTo = specConfirmTransitionTo w)
    (hg : cfg.getUserConfirmation = alwaysReject) (hb : Prompt.Blocking s.prompt)
    (location : Option L) (action : Action) : Resolves c cfg location action s false := by
  intro callback
  rw [hc, hg]
  unfold specConfirmTransitionTo
  cases hp : s.prompt with
  | none => rw [hp] at hb; exact hb.elim
  | some pr =>
    cases pr with
    | message m => rfl
    | compute f =>
      rw [hp] at hb
      have hsome := hb location action
      cases hf : f location action with
      | none => rw [hf] at hsome; exact absurd hsome (by simp)
      | some m => simp only [hf]; rfl

theorem synchronous_spec_reject {L : Type} (c : Collaborators L) (cfg : Config L) (w : Bool)
    (hc : c.confirmTransitionTo = specConfirmTransitionTo w)
    (hg : cfg.getUserConfirmation = alwaysReject) : Synchronous c cfg := by
  intro location action s
  cases hp : s.prompt with
  | none =>
    refine ⟨true, fun callback => ?_⟩
    rw [hc]
    simp only [specConfirmTransitionTo, hp]
  | some pr =>
    cases pr with
    | message m =>
      exact ⟨false, resolves_spec_reject c cfg w s hc hg (by rw [hp]; exact True.intro) _ _⟩
    | compute f =>
      cases hf : f location action with
      | none =>
        refine ⟨w, fun callback => ?_⟩
        rw [hc]
        simp only [specConfirmTransitionTo, hp, hf]
      | some m =>
        refine ⟨false, fun callback => ?_⟩
        rw [hc, hg]
        simp only [specConfirmTransitionTo, hp, hf]
        rfl

theorem length_mapEntries {L : Type} (c : Collaborators L) (cfg : Config L)
    (rand : Nat → String) (es : List PathArg) :
    ∀ k : Nat, (mapEntries c cfg rand es k).length = es.length := by
  induction es with
  | nil => intro k; rfl
  | cons e rest ih =>
    intro k
    cases e with
    | str p => simp [mapEntries, ih]
    | obj o =>
      cases hk : o.key with
      | none => simp [mapEntries, hk, ih]
      | some key =>
        by_cases hkey : key = ""
        · simp [mapEntries, hk, hkey, ih]
        · simp [mapEntries, hk, hkey, ih]

theorem get_mapEntries {L : Type} (c : Collaborators L) (cfg : Config L)
    (rand : Nat → String) (es : List PathArg) :
    ∀ (k i : Nat) (e : PathArg), es.get? i = some e →
      ∃ key : String, (mapEntries c cfg rand es k).get? i
        = some (some (c.createLocation (getStrippedPath c cfg.basename e) none key none)) := by
  induction es with
  | nil => intro k i e h; simp at h
  | cons x rest ih =>
    intro k i e h
    cases i with
    | zero =>
      simp at h
      subst h
      cases x with
      | str p => exact ⟨createKey cfg.keyLength (rand k), by simp [mapEntries]⟩
      | obj o =>
        cases hk : o.key with
        | none => exact ⟨createKey cfg.keyLength (rand k), by simp [mapEntries, hk]⟩
        | some key =>
          by_cases hkey : key = ""
          · exact ⟨createKey cfg.keyLength (rand k), by simp [mapEntries, hk, hkey]⟩
          · exact ⟨key, by simp [mapEntries, hk, hkey]⟩
    | succ j =>
      simp at h
      cases x with
      | str p =>
        obtain ⟨key, hkey⟩ := ih (k + 1) j e (by simpa using h)
        exact ⟨key, by simpa [mapEntries] using hkey⟩
      | obj o =>
        cases hk : o.key with
        | none =>
          obtain ⟨key, hkey⟩ := ih (k + 1) j e (by simpa using h)
          exact ⟨key, by simpa [mapEntries, hk] using hkey⟩
        | some key0 =>
          by_cases hkey0 : key0 = ""
          · obtain ⟨key, hkey⟩ := ih (k + 1) j e (by simpa using h)
            exact ⟨key, by simpa [mapEntries, hk, hkey0] using hkey⟩
          · obtain ⟨key, hkey⟩ := ih k j e (by simpa using h)
            exact ⟨key, by simpa [mapEntries, hk, hkey0] using hkey⟩

theorem wellFormed_createMemoryHistory {L : Type} (c : Collaborators L) (props : Props L)
    (rand : Nat → String) (hne : initialEntriesOf props ≠ []) :
    WellFormed (createMemoryHistory c props rand).history := by
  have hpos : 0 < (initialEntriesOf props).length := List.length_pos.mpr hne
  have hr := clamp_range (initialIndexOf props) ((initialEntriesOf props).length : Int)
    (by omega)
  refine ⟨rfl, hr.1, ?_, rfl⟩
  simp only [createMemoryHistory, length_mapEntries]
  exact hr.2

theorem wellFormed_runCalls {L : Type} (c : Collaborators L) (cfg : Config L)
    (hsync : Synchronous c cfg) (calls : List Call) :
    ∀ s : Store L, WellFormed s.history →
      ∃ t : Store L, runCalls c cfg calls s = Except.ok t ∧ WellFormed t.history := by
  induction calls with
  | nil => intro s hs; exact ⟨s, rfl, hs⟩
  | cons k ks ih =>
    intro s hs
    obtain ⟨ok, hok⟩ := hsync (k.request c cfg s).location (k.request c cfg s).action s
    have hrun := run_of_resolves c cfg k s ok hok
    have hfit := fits_request c cfg k s s rfl (wellFormed_pos _ hs)
    obtain ⟨t, ht, hwt⟩ := ih _ (wellFormed_callback (k.request c cfg s) ok s hs hfit)
    refine ⟨t, ?_, hwt⟩
    simp only [runCalls, hrun]
    exact ht

/-! ## The navigation operations -/

/-- C1: on a stack whose index is in range, a `push` that the transition
manager approves returns normally; the new entries are the first `index + 1`
old entries, in order, followed by the new location (so every old entry
after `index` is gone and there are `index + 2` entries), the new index is
`index + 1`, the action is `PUSH` and the current location is the new one. -/
theorem push_approved {L : Type} (c : Collaborators L) (cfg : Config L) (path : PathArg)
    (state : Option StateValue) (rnd : String) (s : Store L)
    (hlo : 0 ≤ s.history.index) (hhi : s.history.index < (s.history.entries.length : Int))
    (happ : Resolves c cfg (some (newLocation c cfg path state rnd s)) Action.PUSH s true) :
    ∃ t : Store L, push c cfg path state rnd s = Except.ok t ∧
      t.history.entries = s.history.entries.take (s.history.index + 1).toNat
        ++ [some (newLocation c cfg path state rnd s)] ∧
      (t.history.entries.length : Int) = s.history.index + 2 ∧
      (∀ j : Int, j ≤ s.history.index → getAt t.history.entries j = getAt s.history.entries j) ∧
      t.history.index = s.history.index + 1 ∧
      t.history.action = Action.PUSH ∧
      t.history.location = some (newLocation c cfg path state rnd s) := by
  refine ⟨pushCallback (newLocation c cfg path state rnd s) true s, happ _, ?_⟩
  have he := pushCallback_entries (newLocation c cfg path state rnd s) s ⟨hlo, hhi⟩
  obtain ⟨fi, fa, fl, _⟩ := pushCallback_fields (newLocation c cfg path state rnd s) s
  have hk : (s.history.index + 1).toNat ≤ s.history.entries.length := by omega
  refine ⟨he, ?_, ?_, fi, fa, fl⟩
  · rw [he]
    simp only [List.length_append, List.length_take, List.length_singleton]
    omega
  · intro j hj
    rw [he]
    exact getAt_take_append_lt _ _ _ j hk (by omega)

/-- C1, the scenario of the spec: at index 1 of `['/a','/b','/c']`,
`push('/d')` leaves `['/a','/b','/d']` at index 2. -/
theorem push_approved_witness :
    (0 : Int) ≤ (sampleStore ["/a", "/b", "/c"] 1).history.index ∧
    (sampleStore ["/a", "/b", "/c"] 1).history.index
      < ((sampleStore ["/a", "/b", "/c"] 1).history.entries.length : Int) ∧
    Resolves sample sampleConfig
      (some (newLocation sample sampleConfig (PathArg.str "/d") none "0.k3x9"
        (sampleStore ["/a", "/b", "/c"] 1))) Action.PUSH (sampleStore ["/a", "/b", "/c"] 1) true ∧
    ∃ t : Store String,
      push sample sampleConfig (PathArg.str "/d") none "0.k3x9"
        (sampleStore ["/a", "/b", "/c"] 1) = Except.ok t ∧
      t.history.entries = [some "/a", some "/b", some "/d"] ∧
      (t.history.entries.length : Int) = 3 ∧
      (∀ j : Int, j ≤ 1 →
        getAt t.history.entries j = getAt [some "/a", some "/b", some "/c"] j) ∧
      t.history.index = 2 ∧
      t.history.action = Action.PUSH ∧
      t.history.location = some "/d" :=
  ⟨by decide, by decide, fun _ => rfl,
    push_approved sample sampleConfig (PathArg.str "/d") none "0.k3x9"
      (sampleStore ["/a", "/b", "/c"] 1) (by decide) (by decide) (fun _ => rfl)⟩

/-- C2: on a well-formed stack, a `go(n)` that the transition manager
approves returns normally; the new index is `min(max(index + n, 0), length - 1)`,
hence in range, the action is `POP`, the current location is the entry at
the new index, and `entries` and `length` are unchanged. -/
theorem go_approved {L : Type} (c : Collaborators L) (cfg : Config L) (n : Int) (s : Store L)
    (hlen : s.history.length = s.history.entries.length)
    (hlo : 0 ≤ s.history.index) (hhi : s.history.index < (s.history.length : Int))
    (happ : Resolves c cfg (getAt s.history.entries (goIndex s.history n)) Action.POP s true) :
    ∃ t : Store L, go c cfg n s = Except.ok t ∧
      t.history.index = min (max (s.history.index + n) 0) ((s.history.length : Int) - 1) ∧
      t.history.action = Action.POP ∧
      t.history.location = getAt t.history.entries t.history.index ∧
      t.history.entries = s.history.entries ∧
      t.history.length = s.history.length ∧
      0 ≤ t.history.index ∧ t.history.index < (t.history.length : Int) := by
  refine ⟨goCallback (getAt s.history.entries (goIndex s.history n)) (goIndex s.history n) true s,
    happ _, ?_⟩
  rw [goCallback_true_history]
  have hr := goIndex_range s.history n (by omega)
  refine ⟨?_, rfl, rfl, rfl, hlen.symm, hr.1, hr.2⟩
  simp only [goIndex, clamp, hlen]

/-- C2, the scenario of the spec: `go(100)` on a stack of three entries at
index 0 ends at index 2. -/
theorem go_approved_witness :
    (sampleStore ["/a", "/b", "/c"] 0).history.length
      = (sampleStore ["/a", "/b", "/c"] 0).history.entries.length ∧
    (0 : Int) ≤ (sampleStore ["/a", "/b", "/c"] 0).history.index ∧
    (sampleStore ["/a", "/b", "/c"] 0).history.index
      < ((sampleStore ["/a", "/b", "/c"] 0).history.length : Int) ∧
    ∃ t : Store String, go sample sampleConfig 100 (sampleStore ["/a", "/b", "/c"] 0)
        = Except.ok t ∧
      t.history.index = 2 ∧
      t.history.action = Action.POP ∧
      t.history.location = getAt t.history.entries t.history.index ∧
      t.history.entries = [some "/a", some "/b", some "/c"] ∧
      t.history.length = 3 ∧
      0 ≤ t.history.index ∧ t.history.index < (t.history.length : Int) :=
  ⟨by decide, by decide, by decide,
    go_approved sample sampleConfig 100 (sampleStore ["/a", "/b", "/c"] 0)
      (by decide) (by decide) (by decide) (fun _ => rfl)⟩

/-- C3: on a well-formed stack, a `replace` that the transition manager
approves returns normally; `length`, `index` and every entry at a position
other than `index` are unchanged, the entry at `index` and the current
location are the new location, and the action is `REPLACE`. -/
theorem replace_approved {L : Type} (c : Collaborators L) (cfg : Config L) (path : PathArg)
    (state : Option StateValue) (rnd : String) (s : Store L)
    (hlen : s.history.length = s.history.entries.length)
    (hlo : 0 ≤ s.history.index) (hhi : s.history.index < (s.history.length : Int))
    (happ : Resolves c cfg (some (newLocation c cfg path state rnd s)) Action.REPLACE s true) :
    ∃ t : Store L, replace c cfg path state rnd s = Except.ok t ∧
      t.history.length = s.history.length ∧
      t.history.entries.length = s.history.entries.length ∧
      t.history.index = s.history.index ∧
      (∀ j : Int, j ≠ s.history.index →
        getAt t.history.entries j = getAt s.history.entries j) ∧
      getAt t.history.entries s.history.index = some (newLocation c cfg path state rnd s) ∧
      t.history.location = some (newLocation c cfg path state rnd s) ∧
      t.history.action = Action.REPLACE := by
  refine ⟨replaceCallback (newLocation c cfg path state rnd s) true s, happ _, ?_⟩
  have h2 : s.history.index < (s.history.entries.length : Int) := by omega
  rw [replaceCallback_history]
  refine ⟨?_, ?_, rfl, ?_, ?_, rfl, rfl⟩
  · simp only [length_arraySet _ _ _ hlo h2, hlen]
  · exact length_arraySet _ _ _ hlo h2
  · intro j hj
    exact getAt_arraySet_other _ _ _ _ hlo h2 hj
  · exact getAt_arraySet_self _ _ _ hlo h2

/-- C3 at a concrete stack: `replace('/x')` at index 1 of `['/a','/b','/c']`. -/
theorem replace_approved_witness :
    (sampleStore ["/a", "/b", "/c"] 1).history.length
      = (sampleStore ["/a", "/b", "/c"] 1).history.entries.length ∧
    (0 : Int) ≤ (sampleStore ["/a", "/b", "/c"] 1).history.index ∧
    (sampleStore ["/a", "/b", "/c"] 1).history.index
      < ((sampleStore ["/a", "/b", "/c"] 1).history.length : Int) ∧
    ∃ t : Store String,
      replace sample sampleConfig (PathArg.str "/x") none "0.k3x9"
        (sampleStore ["/a", "/b", "/c"] 1) = Except.ok t ∧
      t.history.length = 3 ∧
      t.history.entries.length = 3 ∧
      t.history.index = 1 ∧
      (∀ j : Int, j ≠ 1 →
        getAt t.history.entries j = getAt [some "/a", some "/b", some "/c"] j) ∧
      getAt t.history.entries 1 = some "/x" ∧
      t.history.location = some "/x" ∧
      t.history.action = Action.REPLACE :=
  ⟨by decide, by decide, by decide,
    replace_approved sample sampleConfig (PathArg.str "/x") none "0.k3x9"
      (sampleStore ["/a", "/b", "/c"] 1) (by decide) (by decide) (by decide) (fun _ => rfl)⟩

/-! ## Invariants and rejected transitions -/

/-- C4: from a history created with non-empty `initialEntries`, every finite
sequence of `push`, `replace`, `go`, `goBack` and `goForward` calls, each
answered at once by the transition manager (approved or rejected) before the
next call starts, returns normally and ends in a state where `length` is the
number of entries, `0 <= index < length`, and `location` is `entries[index]`. -/
theorem wellFormed_reachable {L : Type} (c : Collaborators L) (props : Props L)
    (rand : Nat → String) (calls : List Call)
    (hne : initialEntriesOf props ≠ [])
    (hsync : Synchronous c (config c props)) :
    ∃ t : Store L,
      runCalls c (config c props) calls (createMemoryHistory c props rand) = Except.ok t ∧
      t.history.length = t.history.entries.length ∧
      0 ≤ t.history.index ∧ t.history.index < (t.history.length : Int) ∧
      t.history.location = getAt t.history.entries t.history.index := by
  obtain ⟨t, ht, hw⟩ := wellFormed_runCalls c (config c props) hsync calls
    (createMemoryHistory c props rand) (wellFormed_createMemoryHistory c props rand hne)
  exact ⟨t, ht, hw⟩

/-- C4 at a concrete run: from `['/a','/b']` at index 1, the calls
`push('/c')`, `goBack()`, `replace('/x')`, `go(5)`. -/
theorem wellFormed_reachable_witness :
    initialEntriesOf (sampleProps ["/a", "/b"] 1) ≠ [] ∧
    Synchronous sample (config sample (sampleProps ["/a", "/b"] 1)) ∧
    ∃ t : Store String,
      runCalls sample (config sample (sampleProps ["/a", "/b"] 1))
        [Call.push (PathArg.str "/c") none "0.k3x9", Call.goBack,
          Call.replace (PathArg.str "/x") none "0.p81z", Call.go 5]
        (createMemoryHistory sample (sampleProps ["/a", "/b"] 1) sampleRand) = Except.ok t ∧
      t.history.length = t.history.entries.length ∧
      0 ≤ t.history.index ∧ t.history.index < (t.history.length : Int) ∧
      t.history.location = getAt t.history.entries t.history.index :=
  ⟨by decide, synchronous_spec_reject sample _ true rfl rfl,
    wellFormed_reachable sample (sampleProps ["/a", "/b"] 1) sampleRand
      [Call.push (PathArg.str "/c") none "0.k3x9", Call.goBack,
        Call.replace (PathArg.str "/x") none "0.p81z", Call.go 5]
      (by decide) (synchronous_spec_reject sample _ true rfl rfl)⟩

/-- C5: on a stack whose `length` is the number of its entries, when the
transition manager rejects (hands `false` to the approval callback), `push`,
`replace` and `go` return normally and leave `entries`, `index`, `action`,
`location` and `length` (the whole record) as they were, whatever the argument. -/
theorem rejected_unchanged {L : Type} (c : Collaborators L) (cfg : Config L) (s : Store L)
    (hlen : s.history.length = s.history.entries.length)
    (hrej : ∀ (location : Option L) (action : Action), Resolves c cfg location action s false) :
    (∀ (path : PathArg) (state : Option StateValue) (rnd : String),
      ∃ t : Store L, push c cfg path state rnd s = Except.ok t ∧ t.history = s.history) ∧
    (∀ (path : PathArg) (state : Option StateValue) (rnd : String),
      ∃ t : Store L, replace c cfg path state rnd s = Except.ok t ∧ t.history = s.history) ∧
    (∀ n : Int, ∃ t : Store L, go c cfg n s = Except.ok t ∧ t.history = s.history) := by
  refine ⟨?_, ?_, ?_⟩
  · intro path state rnd
    exact ⟨s, hrej _ _ _, rfl⟩
  · intro path state rnd
    exact ⟨s, hrej _ _ _, rfl⟩
  · intro n
    refine ⟨_, hrej _ _ _, ?_⟩
    rw [goCallback_false_history, ← hlen]

/-- C5 at a concrete stack: `['/a','/b','/c']` at index 1 behind the prompt
`'Leave?'`, with a confirmation function that rejects. -/
theorem rejected_unchanged_witness :
    (sampleBlocked ["/a", "/b", "/c"] 1).history.length
      = (sampleBlocked ["/a", "/b", "/c"] 1).history.entries.length ∧
    (∀ (location : Option String) (action : Action),
      Resolves sample sampleConfig location action
        (sampleBlocked ["/a", "/b", "/c"] 1) false) ∧
    ((∀ (path : PathArg) (state : Option StateValue) (rnd : String),
      ∃ t : Store String,
        push sample sampleConfig path state rnd
          (sampleBlocked ["/a", "/b", "/c"] 1)
          = Except.ok t ∧
        t.history
          = (sampleBlocked ["/a", "/b", "/c"] 1).history) ∧
    (∀ (path : PathArg) (state : Option StateValue) (rnd : String),
      ∃ t : Store String,
        replace sample sampleConfig path state rnd
          (sampleBlocked ["/a", "/b", "/c"] 1)
          = Except.ok t ∧
        t.history
          = (sampleBlocked ["/a", "/b", "/c"] 1).history) ∧
    (∀ n : Int, ∃ t : Store String,
        go sample sampleConfig n
          (sampleBlocked ["/a", "/b", "/c"] 1)
          = Except.ok t ∧
        t.history
          = (sampleBlocked ["/a", "/b", "/c"] 1).history)) :=
  ⟨by decide, fun _ _ _ => rfl,
    rejected_unchanged sample sampleConfig
      (sampleBlocked ["/a", "/b", "/c"] 1)
      (by decide) (fun _ _ _ => rfl)⟩

/-- C6, as stated, fails: with the transition manager of the spec, no blocking
prompt and a confirmation function that always rejects, `push('/b')` on the
history created from `['/a']` is approved without asking, and both `entries`
and `index` change. -/
theorem rejection_invariant_counterexample :
    sampleConfig.getUserConfirmation = alwaysReject ∧
    sample.confirmTransitionTo = specConfirmTransitionTo true ∧
    (sampleStore ["/a"] 0).history.entries = [some "/a"] ∧
    (sampleStore ["/a"] 0).history.index = 0 ∧
    ∃ t : Store String,
      runCalls sample sampleConfig [Call.push (PathArg.str "/b") none "0.k3x9"]
        (sampleStore ["/a"] 0) = Except.ok t ∧
      t.history.entries = [some "/a", some "/b"] ∧
      t.history.index = 1 ∧
      t.history.entries ≠ (sampleStore ["/a"] 0).history.entries ∧
      t.history.index ≠ (sampleStore ["/a"] 0).history.index :=
  ⟨rfl, rfl, by decide, by decide,
    pushCallback "/b" true (sampleStore ["/a"] 0), rfl, by decide, by decide, by decide,
    by decide⟩

/-- C6, amended: with the transition manager of the spec, a blocking prompt
that yields a message for every transition and a confirmation function that
always rejects, every sequence of `push`, `replace`, `go`, `goBack` and
`goForward` calls from any state returns normally and leaves `entries` and
`index` at their initial values. -/
theorem rejection_invariant_blocking {L : Type} (c : Collaborators L) (cfg : Config L)
    (w : Bool) (calls : List Call) (s : Store L)
    (hc : c.confirmTransitionTo = specConfirmTransitionTo w)
    (hg : cfg.getUserConfirmation = alwaysReject)
    (hb : Prompt.Blocking s.prompt) :
    ∃ t : Store L, runCalls c cfg calls s = Except.ok t ∧
      t.history.entries = s.history.entries ∧ t.history.index = s.history.index := by
  induction calls generalizing s with
  | nil => exact ⟨s, rfl, rfl, rfl⟩
  | cons k ks ih =>
    have hrun := run_of_resolves c cfg k s false (resolves_spec_reject c cfg w s hc hg hb _ _)
    have hkeep : ((k.request c cfg s).callback false s).prompt = s.prompt ∧
        ((k.request c cfg s).callback false s).history.entries = s.history.entries ∧
        ((k.request c cfg s).callback false s).history.index = s.history.index := by
      cases k <;> exact ⟨rfl, rfl, rfl⟩
    obtain ⟨hp, he, hi⟩ := hkeep
    obtain ⟨t, ht, hte, hti⟩ := ih ((k.request c cfg s).callback false s) (by rw [hp]; exact hb)
    refine ⟨t, ?_, hte.trans he, hti.trans hi⟩
    simp only [runCalls, hrun]
    exact ht

/-- C6, amended, at a concrete run behind the prompt `'Leave?'`. -/
theorem rejection_invariant_blocking_witness :
    sample.confirmTransitionTo = specConfirmTransitionTo true ∧
    sampleConfig.getUserConfirmation = alwaysReject ∧
    Prompt.Blocking (sampleBlocked ["/a", "/b"] 1).prompt ∧
    ∃ t : Store String,
      runCalls sample sampleConfig
        [Call.push (PathArg.str "/c") none "0.k3x9", Call.goBack,
          Call.replace (PathArg.str "/x") none "0.p81z", Call.go 5]
        (sampleBlocked ["/a", "/b"] 1) = Except.ok t ∧
      t.history.entries
        = (sampleBlocked ["/a", "/b"] 1).history.entries ∧
      t.history.index
        = (sampleBlocked ["/a", "/b"] 1).history.index :=
  ⟨rfl, rfl, True.intro,
    rejection_invariant_blocking sample sampleConfig true
      [Call.push (PathArg.str "/c") none "0.k3x9", Call.goBack,
        Call.replace (PathArg.str "/x") none "0.p81z", Call.go 5]
      (sampleBlocked ["/a", "/b"] 1) rfl rfl True.intro⟩

/-! ## Asynchronous confirmation -/

/-- C7, as stated, fails: on the history created from `['/a','/b','/c']` at
index 0, behind a blocking prompt, `go(2)` is requested, then `push('/d')` is
requested and approved (the state is well-formed, with two entries), then
the `go` is approved: it
installs the index 2 and the location `/c` fixed at request time, so the
index is no longer below `length` and `location` is not `entries[index]`. -/
theorem async_go_counterexample :
    WellFormed (sampleBlocked ["/a", "/b", "/c"] 0).history ∧
    WellFormed (Machine.steps sample sampleConfig
      { store := sampleBlocked ["/a", "/b", "/c"] 0, pending := [] }
      (staleGoEvents.take 3)).store.history ∧
    (Machine.steps sample sampleConfig
      { store := sampleBlocked ["/a", "/b", "/c"] 0, pending := [] }
      staleGoEvents).store.history
      = { length := 2
          action := Action.POP
          location := some "/c"
          index := 2
          entries := [some "/a", some "/d"] } ∧
    ¬ WellFormed (Machine.steps sample sampleConfig
      { store := sampleBlocked ["/a", "/b", "/c"] 0, pending := [] }
      staleGoEvents).store.history := by
  decide

/-- C7, amended: with asynchronous confirmation, approving a pending
transition in a well-formed state gives a well-formed state for every
pending `push` and `replace`, whatever was requested and approved since its
request, and for a pending `go`, `goBack` or `goForward` when `entries` is
the same as in the store where it was requested. -/
theorem async_approval_wellFormed {L : Type} (c : Collaborators L) (cfg : Config L)
    (m : Machine L) (i : Nat) (k : Call) (s0 : Store L)
    (hwf : WellFormed m.store.history)
    (hp : m.pending.get? i = some (k.request c cfg s0))
    (hsame : k.isGo = true → s0.history.entries = m.store.history.entries) :
    WellFormed (m.step c cfg (Event.resolve i true)).store.history := by
  have hfit : (k.request c cfg s0).Fits m.store.history := by
    cases k with
    | push path state rnd => exact True.intro
    | replace path state rnd => exact True.intro
    | go n => exact fits_request c cfg _ s0 m.store (hsame rfl) (wellFormed_pos _ hwf)
    | goBack => exact fits_request c cfg _ s0 m.store (hsame rfl) (wellFormed_pos _ hwf)
    | goForward => exact fits_request c cfg _ s0 m.store (hsame rfl) (wellFormed_pos _ hwf)
  simp only [Machine.step, hp]
  exact wellFormed_callback _ true m.store hwf hfit

/-- C7, amended, at a concrete interleaving: `go(2)` is requested at index 0
of `['/a','/b','/c']`, `go(1)` is requested and approved, then the first
`go` is approved. -/
theorem async_approval_wellFormed_witness :
    WellFormed (Machine.steps sample sampleConfig
      { store := sampleBlocked ["/a", "/b", "/c"] 0, pending := [] }
      overlappingGoEvents).store.history ∧
    (Machine.steps sample sampleConfig
      { store := sampleBlocked ["/a", "/b", "/c"] 0, pending := [] }
      overlappingGoEvents).pending.get? 0
      = some ((Call.go 2).request sample sampleConfig (sampleBlocked ["/a", "/b", "/c"] 0)) ∧
    ((Call.go 2).isGo = true →
      (sampleBlocked ["/a", "/b", "/c"] 0).history.entries
        = (Machine.steps sample sampleConfig
            { store := sampleBlocked ["/a", "/b", "/c"] 0, pending := [] }
            overlappingGoEvents).store.history.entries) ∧
    WellFormed ((Machine.steps sample sampleConfig
      { store := sampleBlocked ["/a", "/b", "/c"] 0, pending := [] }
      overlappingGoEvents).step sample sampleConfig (Event.resolve 0 true)).store.history :=
  ⟨by decide, by decide, fun _ => by decide,
    async_approval_wellFormed sample sampleConfig
      (Machine.steps sample sampleConfig
        { store := sampleBlocked ["/a", "/b", "/c"] 0, pending := [] } overlappingGoEvents)
      0 (Call.go 2) (sampleBlocked ["/a", "/b", "/c"] 0)
      (by decide) (by decide) (fun _ => by decide)⟩

/-! ## The predicate `canGo` -/

/-- C8: on a stack whose `length` is the number of its entries, `canGo(n)` is
true exactly when `0 <= index + n <= length - 1`; the call leaves the store
as it is and adds no pending transition. -/
theorem canGo_iff {L : Type} (m : Machine L) (n : Int)
    (hlen : m.store.history.length = m.store.history.entries.length) :
    ((m.canGo n).1 = true ↔
      0 ≤ m.store.history.index + n ∧
        m.store.history.index + n ≤ (m.store.history.length : Int) - 1) ∧
    (m.canGo n).1 = canGo m.store.history n ∧
    (m.canGo n).2 = m := by
  refine ⟨?_, rfl, rfl⟩
  simp only [Machine.canGo, canGo, Bool.and_eq_true, decide_eq_true_eq, hlen]
  omega

/-- C8 at a concrete stack: at index 1 of three entries, `canGo(1)` holds. -/
theorem canGo_iff_witness :
    (Machine.mk (sampleStore ["/a", "/b", "/c"] 1) []).store.history.length
      = (Machine.mk (sampleStore ["/a", "/b", "/c"] 1) []).store.history.entries.length ∧
    ((((Machine.mk (sampleStore ["/a", "/b", "/c"] 1) []).canGo 1).1 = true ↔
      0 ≤ (Machine.mk (sampleStore ["/a", "/b", "/c"] 1) []).store.history.index + 1 ∧
        (Machine.mk (sampleStore ["/a", "/b", "/c"] 1) []).store.history.index + 1
          ≤ ((Machine.mk (sampleStore ["/a", "/b", "/c"] 1) []).store.history.length : Int) - 1) ∧
    ((Machine.mk (sampleStore ["/a", "/b", "/c"] 1) []).canGo 1).1
      = canGo (Machine.mk (sampleStore ["/a", "/b", "/c"] 1) []).store.history 1 ∧
    ((Machine.mk (sampleStore ["/a", "/b", "/c"] 1) []).canGo 1).2
      = Machine.mk (sampleStore ["/a", "/b", "/c"] 1) []) :=
  ⟨by decide, canGo_iff (Machine.mk (sampleStore ["/a", "/b", "/c"] 1) []) 1 (by decide)⟩

/-! ## Construction -/

/-- C9: with `k` initial entries, `k > 0`, the new history has `k` entries and
`length = k`; the entry at each position is the location built from the
initial entry at that position (stripped path, no state, some key, no
current location); `index` is `min(max(initialIndex, 0), k - 1)`, the action
is `POP`, `location` is `entries[index]`; without `initialIndex` the index is
0, and with no options at all the index is 0. -/
theorem createMemoryHistory_spec {L : Type} (c : Collaborators L) (props : Props L)
    (rand : Nat → String) (hne : initialEntriesOf props ≠ []) :
    (createMemoryHistory c props rand).history.entries.length
      = (initialEntriesOf props).length ∧
    (createMemoryHistory c props rand).history.length = (initialEntriesOf props).length ∧
    (∀ (i : Nat) (e : PathArg), (initialEntriesOf props).get? i = some e →
      ∃ key : String, (createMemoryHistory c props rand).history.entries.get? i
        = some (some (c.createLocation
            (getStrippedPath c (config c props).basename e) none key none))) ∧
    (createMemoryHistory c props rand).history.index
      = min (max (initialIndexOf props) 0) (((initialEntriesOf props).length : Int) - 1) ∧
    (createMemoryHistory c props rand).history.action = Action.POP ∧
    (createMemoryHistory c props rand).history.location
      = getAt (createMemoryHistory c props rand).history.entries
          (createMemoryHistory c props rand).history.index ∧
    (props.initialIndex = none → (createMemoryHistory c props rand).history.index = 0) ∧
    (createMemoryHistory c ({} : Props L) rand).history.index = 0 := by
  have hpos : 0 < (initialEntriesOf props).length := List.length_pos.mpr hne
  refine ⟨length_mapEntries _ _ _ _ _, length_mapEntries _ _ _ _ _, ?_, rfl, rfl, rfl, ?_, ?_⟩
  · intro i e he
    exact get_mapEntries c (config c props) rand (initialEntriesOf props) 0 i e he
  · intro hnone
    simp only [createMemoryHistory, initialIndexOf, hnone, Option.getD_none, clamp]
    omega
  · rfl

/-- C9, the scenario of the spec: `initialEntries = ['/a','/b']` and
`initialIndex = 1` give index 1, length 2 and the location of `/b`. -/
theorem createMemoryHistory_spec_witness :
    initialEntriesOf (sampleProps ["/a", "/b"] 1) ≠ [] ∧
    (createMemoryHistory sample (sampleProps ["/a", "/b"] 1) sampleRand).history
      = { length := 2
          action := Action.POP
          location := some "/b"
          index := 1
          entries := [some "/a", some "/b"] } ∧
    ((createMemoryHistory sample (sampleProps ["/a", "/b"] 1) sampleRand).history.entries.length
      = (initialEntriesOf (sampleProps ["/a", "/b"] 1)).length ∧
    (createMemoryHistory sample (sampleProps ["/a", "/b"] 1) sampleRand).history.length
      = (initialEntriesOf (sampleProps ["/a", "/b"] 1)).length ∧
    (∀ (i : Nat) (e : PathArg),
      (initialEntriesOf (sampleProps ["/a", "/b"] 1)).get? i = some e →
      ∃ key : String,
        (createMemoryHistory sample (sampleProps ["/a", "/b"] 1) sampleRand).history.entries.get? i
          = some (some (sample.createLocation
              (getStrippedPath sample (config sample (sampleProps ["/a", "/b"] 1)).basename e)
              none key none))) ∧
    (createMemoryHistory sample (sampleProps ["/a", "/b"] 1) sampleRand).history.index
      = min (max (initialIndexOf (sampleProps ["/a", "/b"] 1)) 0)
          (((initialEntriesOf (sampleProps ["/a", "/b"] 1)).length : Int) - 1) ∧
    (createMemoryHistory sample (sampleProps ["/a", "/b"] 1) sampleRand).history.action
      = Action.POP ∧
    (createMemoryHistory sample (sampleProps ["/a", "/b"] 1) sampleRand).history.location
      = getAt (createMemoryHistory sample (sampleProps ["/a", "/b"] 1) sampleRand).history.entries
          (createMemoryHistory sample (sampleProps ["/a", "/b"] 1) sampleRand).history.index ∧
    ((sampleProps ["/a", "/b"] 1).initialIndex = none →
      (createMemoryHistory sample (sampleProps ["/a", "/b"] 1) sampleRand).history.index = 0) ∧
    (createMemoryHistory sample ({} : Props String) sampleRand).history.index = 0) :=
  ⟨by decide, by decide,
    createMemoryHistory_spec sample (sampleProps ["/a", "/b"] 1) sampleRand (by decide)⟩

/-- C10, as stated, fails: constructing a history from an empty
`initialEntries` returns a history object; its index is -1, its length 0 and
its location undefined. -/
theorem createMemoryHistory_empty_counterexample :
    initialEntriesOf (sampleProps [] 0) = [] ∧
    (createMemoryHistory sample (sampleProps [] 0) sampleRand).history
      = { length := 0
          action := Action.POP
          location := none
          index := -1
          entries := [] } ∧
    ¬ WellFormed (createMemoryHistory sample (sampleProps [] 0) sampleRand).history := by
  decide

/-- C10, amended: constructing a history from an empty `initialEntries` does
not fail; whatever the other options, it returns the history with no
entries, `length = 0`, `index = -1`, action `POP` and `location` undefined. -/
theorem createMemoryHistory_empty {L : Type} (c : Collaborators L) (props : Props L)
    (rand : Nat → String) :
    (createMemoryHistory c { props with initialEntries := some [] } rand).history
      = { length := 0
          action := Action.POP
          location := none
          index := -1
          entries := [] } := by
  have hi : clamp (initialIndexOf { props with initialEntries := some [] }) 0
      ((([] : List PathArg).length : Int) - 1) = -1 := by
    simp only [clamp, List.length_nil]
    omega
  simp only [createMemoryHistory, initialEntriesOf, Option.getD_some, mapEntries, hi]
  rfl

/-! ## Keys of the initial entries -/

theorem mapEntries_append {L : Type} (c : Collaborators L) (cfg : Config L)
    (rand : Nat → String) (xs ys : List PathArg) :
    ∀ k : Nat, mapEntries c cfg rand (xs ++ ys) k
      = mapEntries c cfg rand xs k ++ mapEntries c cfg rand ys (k + keyDraws xs) := by
  induction xs with
  | nil => intro k; simp [mapEntries, keyDraws]
  | cons x rest ih =>
    intro k
    have e : k + 1 + keyDraws rest = k + (keyDraws rest + 1) := by omega
    cases x with
    | str p =>
      rw [List.cons_append]
      simp only [mapEntries, keyDraws, ih, e, List.cons_append]
    | obj o =>
      rw [List.cons_append]
      cases hk : o.key with
      | none => simp only [mapEntries, keyDraws, hk, ih, e, List.cons_append]
      | some key =>
        by_cases hkey : key = ""
        · simp [mapEntries, keyDraws, hk, hkey, ih, e]
        · simp [mapEntries, keyDraws, hk, hkey, ih]

/-- C11, as stated, fails: an initial entry given as an object whose key is
the empty string does not keep that key; `entry.key || createKey()` draws a
new key, here `4fzyo8`, and passes it to `createLocation`. -/
theorem explicit_key_counterexample :
    (createMemoryHistory keyed
      (keyedProps [PathArg.obj { pathname := "/a", state := none, key := some "" }])
      sampleDraws).history.entries = [some ("/a", "4fzyo8")] ∧
    createKey 6 (sampleDraws 0) = "4fzyo8" ∧
    (createMemoryHistory keyed
      (keyedProps [PathArg.obj { pathname := "/a", state := none, key := some "" }])
      sampleDraws).history.entries ≠ [some ("/a", "")] := by
  decide

/-- C11, amended: for an initial entry given as an object with a key, at any
position of `initialEntries`: when the key is a non-empty string, the entry
built at that position is `createLocation` applied to exactly that key, and
no draw of `createKey` is made for it (the entries after it use the draws
that follow those of the entries before it); when the key is the empty
string, the key is the next draw of `createKey`. -/
theorem explicit_key_honoured {L : Type} (c : Collaborators L) (props : Props L)
    (rand : Nat → String) (pre post : List PathArg) (o : LocationLike) (key : String)
    (hes : props.initialEntries = some (pre ++ PathArg.obj o :: post))
    (hkey : o.key = some key) :
    (key ≠ "" →
      (createMemoryHistory c props rand).history.entries.get? pre.length
        = some (some (c.createLocation
            (getStrippedPath c (config c props).basename (PathArg.obj o)) none key none)) ∧
      (createMemoryHistory c props rand).history.entries
        = mapEntries c (config c props) rand pre 0
          ++ some (c.createLocation
              (getStrippedPath c (config c props).basename (PathArg.obj o)) none key none)
            :: mapEntries c (config c props) rand post (keyDraws pre)) ∧
    (key = "" →
      (createMemoryHistory c props rand).history.entries
        = mapEntries c (config c props) rand pre 0
          ++ some (c.createLocation
              (getStrippedPath c (config c props).basename (PathArg.obj o)) none
              (createKey (config c props).keyLength (rand (keyDraws pre))) none)
            :: mapEntries c (config c props) rand post (keyDraws pre + 1)) := by
  have hent : (createMemoryHistory c props rand).history.entries
      = mapEntries c (config c props) rand pre 0
        ++ mapEntries c (config c props) rand (PathArg.obj o :: post) (0 + keyDraws pre) := by
    simp only [createMemoryHistory, initialEntriesOf, hes, Option.getD_some]
    exact mapEntries_append c (config c props) rand pre _ 0
  have hlen : (mapEntries c (config c props) rand pre 0).length = pre.length :=
    length_mapEntries _ _ _ _ _
  constructor
  · intro hne
    have h2 : (createMemoryHistory c props rand).history.entries
        = mapEntries c (config c props) rand pre 0
          ++ some (c.createLocation
              (getStrippedPath c (config c props).basename (PathArg.obj o)) none key none)
            :: mapEntries c (config c props) rand post (keyDraws pre) := by
      rw [hent]
      simp [mapEntries, hkey, hne]
    refine ⟨?_, h2⟩
    rw [h2, ← hlen, List.get?_eq_getElem?, List.getElem?_append_right (le_refl _)]
    simp
  · intro he
    rw [hent]
    simp [mapEntries, hkey, he]

/-- C11, amended, at concrete entries: `'/a'`, an object for `/b` with key
`k1`, `'/c'`; the third entry gets the second draw. -/
theorem explicit_key_honoured_witness :
    (keyedProps [PathArg.str "/a",
        PathArg.obj { pathname := "/b", state := none, key := some "k1" },
        PathArg.str "/c"]).initialEntries
      = some ([PathArg.str "/a"]
          ++ PathArg.obj { pathname := "/b", state := none, key := some "k1" }
            :: [PathArg.str "/c"]) ∧
    (createMemoryHistory keyed
      (keyedProps [PathArg.str "/a",
        PathArg.obj { pathname := "/b", state := none, key := some "k1" },
        PathArg.str "/c"]) sampleDraws).history.entries
      = [some ("/a", "4fzyo8"), some ("/b", "k1"), some ("/c", "9x1c7q")] ∧
    (createMemoryHistory keyed
      (keyedProps [PathArg.str "/a",
        PathArg.obj { pathname := "/b", state := none, key := some "k1" },
        PathArg.str "/c"]) sampleDraws).history.entries.get? [PathArg.str "/a"].length
      = some (some (keyed.createLocation
          (getStrippedPath keyed
            (config keyed (keyedProps [PathArg.str "/a",
              PathArg.obj { pathname := "/b", state := none, key := some "k1" },
              PathArg.str "/c"])).basename
            (PathArg.obj { pathname := "/b", state := none, key := some "k1" }))
          none "k1" none)) :=
  ⟨rfl, by decide,
    ((explicit_key_honoured keyed
      (keyedProps [PathArg.str "/a",
        PathArg.obj { pathname := "/b", state := none, key := some "k1" },
        PathArg.str "/c"]) sampleDraws [PathArg.str "/a"] [PathArg.str "/c"]
      { pathname := "/b", state := none, key := some "k1" } "k1" rfl rfl).1 (by decide)).1⟩

/-! ## Length, notifications and the window before the callback -/

theorem resolves_spec_unblocked {L : Type} (c : Collaborators L) (cfg : Config L) (w : Bool)
    (hc : c.confirmTransitionTo = specConfirmTransitionTo w) (t : Store L)
    (ht : t.prompt = none) (location : Option L) (action : Action) :
    Resolves c cfg location action t true := by
  intro callback
  rw [hc]
  simp only [specConfirmTransitionTo, ht]

theorem pushCallback_notified {L : Type} (location : L) (s : Store L) :
    (pushCallback location true s).notified
      = s.notified ++ [(some location, Action.PUSH)] ∧
    (pushCallback location true s).prompt = s.prompt := by
  simp [pushCallback, setState, assign]

theorem replaceCallback_notified {L : Type} (location : L) (s : Store L) :
    (replaceCallback location true s).notified
      = s.notified ++ [(some location, Action.REPLACE)] ∧
    (replaceCallback location true s).prompt = s.prompt := by
  simp [replaceCallback, setState, assign]

theorem goCallback_notified {L : Type} (location : Option L) (nextIndex : Int) (ok : Bool)
    (s : Store L) :
    (goCallback location nextIndex ok s).notified
      = s.notified ++ [((goCallback location nextIndex ok s).history.location,
          (goCallback location nextIndex ok s).history.action)] ∧
    (goCallback location nextIndex ok s).prompt = s.prompt := by
  cases ok <;> simp [goCallback, setState, assign]

/-- C12: after an approved `push` on a well-formed stack, `length` is the old
index plus 2; it is the old `length` plus one exactly when the old index was
the last one, it is at most the old `length` otherwise, and it never exceeds
the old `length` plus one. -/
theorem push_length {L : Type} (c : Collaborators L) (cfg : Config L) (path : PathArg)
    (state : Option StateValue) (rnd : String) (s : Store L)
    (hlen : s.history.length = s.history.entries.length)
    (hlo : 0 ≤ s.history.index) (hhi : s.history.index < (s.history.length : Int))
    (happ : Resolves c cfg (some (newLocation c cfg path state rnd s)) Action.PUSH s true) :
    ∃ t : Store L, push c cfg path state rnd s = Except.ok t ∧
      (t.history.length : Int) = s.history.index + 2 ∧
      ((t.history.length : Int) = (s.history.length : Int) + 1 ↔
        s.history.index = (s.history.length : Int) - 1) ∧
      (s.history.index ≠ (s.history.length : Int) - 1 →
        t.history.length ≤ s.history.length) ∧
      t.history.length ≤ s.history.length + 1 := by
  refine ⟨pushCallback (newLocation c cfg path state rnd s) true s, happ _, ?_⟩
  have he := pushCallback_entries (newLocation c cfg path state rnd s) s ⟨hlo, by omega⟩
  obtain ⟨_, _, _, fn⟩ := pushCallback_fields (newLocation c cfg path state rnd s) s
  have hk : (s.history.index + 1).toNat ≤ s.history.entries.length := by omega
  have hcard : (pushCallback (newLocation c cfg path state rnd s) true s).history.length
      = (s.history.index + 1).toNat + 1 := by
    rw [fn, he]
    simp [List.length_take, hk]
  rw [hcard]
  refine ⟨by omega, by omega, ?_, by omega⟩
  intro hne
  omega

/-- C12 at concrete stacks: a push at index 1 of three entries leaves three. -/
theorem push_length_witness :
    (sampleStore ["/a", "/b", "/c"] 1).history.length
      = (sampleStore ["/a", "/b", "/c"] 1).history.entries.length ∧
    (0 : Int) ≤ (sampleStore ["/a", "/b", "/c"] 1).history.index ∧
    (sampleStore ["/a", "/b", "/c"] 1).history.index
      < ((sampleStore ["/a", "/b", "/c"] 1).history.length : Int) ∧
    ∃ t : Store String,
      push sample sampleConfig (PathArg.str "/d") none "0.k3x9"
        (sampleStore ["/a", "/b", "/c"] 1) = Except.ok t ∧
      (t.history.length : Int) = 1 + 2 ∧
      ((t.history.length : Int) = (3 : Int) + 1 ↔ (1 : Int) = (3 : Int) - 1) ∧
      ((1 : Int) ≠ (3 : Int) - 1 → t.history.length ≤ 3) ∧
      t.history.length ≤ 3 + 1 :=
  ⟨by decide, by decide, by decide,
    push_length sample sampleConfig (PathArg.str "/d") none "0.k3x9"
      (sampleStore ["/a", "/b", "/c"] 1) (by decide) (by decide) (by decide) (fun _ => rfl)⟩

/-- C13: when the transition manager answers `ok` at once, `push` and
`replace` make exactly one call of `notifyListeners` if `ok` is true, with
the new location and the new action, and none if `ok` is false; `go` makes
exactly one call either way, with the location and action of the record
after the call, which are the unchanged ones if `ok` is false and the target
entry and `POP` if `ok` is true. -/
theorem notified_once {L : Type} (c : Collaborators L) (cfg : Config L) (s : Store L)
    (ok : Bool)
    (hres : ∀ (location : Option L) (action : Action), Resolves c cfg location action s ok) :
    (∀ (path : PathArg) (state : Option StateValue) (rnd : String),
      ∃ t : Store L, push c cfg path state rnd s = Except.ok t ∧
        t.notified = s.notified ++
          (if ok then [(some (newLocation c cfg path state rnd s), Action.PUSH)] else []) ∧
        (ok = true → t.history.location = some (newLocation c cfg path state rnd s) ∧
          t.history.action = Action.PUSH)) ∧
    (∀ (path : PathArg) (state : Option StateValue) (rnd : String),
      ∃ t : Store L, replace c cfg path state rnd s = Except.ok t ∧
        t.notified = s.notified ++
          (if ok then [(some (newLocation c cfg path state rnd s), Action.REPLACE)] else []) ∧
        (ok = true → t.history.location = some (newLocation c cfg path state rnd s) ∧
          t.history.action = Action.REPLACE)) ∧
    (∀ n : Int,
      ∃ t : Store L, go c cfg n s = Except.ok t ∧
        t.notified = s.notified ++ [(t.history.location, t.history.action)] ∧
        (ok = false → t.history.location = s.history.location ∧
          t.history.action = s.history.action) ∧
        (ok = true → t.history.location = getAt s.history.entries (goIndex s.history n) ∧
          t.history.action = Action.POP)) := by
  refine ⟨?_, ?_, ?_⟩
  · intro path state rnd
    refine ⟨_, hres _ _ _, ?_⟩
    cases ok with
    | false => simp [pushCallback_false]
    | true =>
      obtain ⟨_, fa, fl, _⟩ := pushCallback_fields (newLocation c cfg path state rnd s) s
      exact ⟨by simpa using (pushCallback_notified _ s).1, fun _ => ⟨fl, fa⟩⟩
  · intro path state rnd
    refine ⟨_, hres _ _ _, ?_⟩
    cases ok with
    | false => simp [replaceCallback_false]
    | true =>
      refine ⟨by simpa using (replaceCallback_notified _ s).1, fun _ => ?_⟩
      rw [replaceCallback_history]
      exact ⟨rfl, rfl⟩
  · intro n
    refine ⟨_, hres _ _ _, (goCallback_notified _ _ ok s).1, ?_, ?_⟩
    · intro hok
      subst hok
      rw [goCallback_false_history]
      exact ⟨rfl, rfl⟩
    · intro hok
      subst hok
      rw [goCallback_true_history]
      exact ⟨rfl, rfl⟩

/-- C13 at a concrete stack behind the prompt `'Leave?'`, every transition
rejected. -/
theorem notified_once_witness :
    (∀ (location : Option String) (action : Action),
      Resolves sample sampleConfig location action (sampleBlocked ["/a", "/b", "/c"] 1) false) ∧
    (∃ t : Store String,
      push sample sampleConfig (PathArg.str "/d") none "0.k3x9"
        (sampleBlocked ["/a", "/b", "/c"] 1) = Except.ok t ∧
      t.notified = (sampleBlocked ["/a", "/b", "/c"] 1).notified ++
        (if false then
          [(some (newLocation sample sampleConfig (PathArg.str "/d") none "0.k3x9"
            (sampleBlocked ["/a", "/b", "/c"] 1)), Action.PUSH)]
        else []) ∧
      (false = true →
        t.history.location = some (newLocation sample sampleConfig (PathArg.str "/d") none
          "0.k3x9" (sampleBlocked ["/a", "/b", "/c"] 1)) ∧
        t.history.action = Action.PUSH)) ∧
    (∃ t : Store String,
      go sample sampleConfig 1 (sampleBlocked ["/a", "/b", "/c"] 1) = Except.ok t ∧
      t.notified = (sampleBlocked ["/a", "/b", "/c"] 1).notified
        ++ [(t.history.location, t.history.action)] ∧
      (false = false →
        t.history.location = (sampleBlocked ["/a", "/b", "/c"] 1).history.location ∧
        t.history.action = (sampleBlocked ["/a", "/b", "/c"] 1).history.action) ∧
      (false = true →
        t.history.location = getAt (sampleBlocked ["/a", "/b", "/c"] 1).history.entries
          (goIndex (sampleBlocked ["/a", "/b", "/c"] 1).history 1) ∧
        t.history.action = Action.POP)) :=
  ⟨fun _ _ _ => rfl,
    (notified_once sample sampleConfig (sampleBlocked ["/a", "/b", "/c"] 1) false
      (fun _ _ _ => rfl)).1 (PathArg.str "/d") none "0.k3x9",
    (notified_once sample sampleConfig (sampleBlocked ["/a", "/b", "/c"] 1) false
      (fun _ _ _ => rfl)).2.2 1⟩

theorem run_eq_confirm {L : Type} (c : Collaborators L) (cfg : Config L) (k : Call)
    (s : Store L) :
    k.run c cfg s = c.confirmTransitionTo (k.request c cfg s).location
      (k.request c cfg s).action cfg.getUserConfirmation
      (fun ok t => Except.ok ((k.request c cfg s).callback ok t)) s := by
  cases k <;> rfl

theorem arraySet_arraySet {α : Type} (xs : List (Option α)) (i : Int) (v : Option α)
    (h0 : 0 ≤ i) (h1 : i < (xs.length : Int)) :
    arraySet (arraySet xs i v) i v = arraySet xs i v := by
  have hneg : ¬ (i < 0) := by omega
  have hlt : i.toNat < xs.length := by omega
  simp [arraySet, hneg, hlt]

/-- C14: what `push`, `replace`, `go`, `goBack` and `goForward` do before the
approval callback runs is to hand the store, as they received it, to
`confirmTransitionTo` together with the callback. With a transition manager
that returns without invoking the callback the call returns the store
unchanged; with asynchronous confirmation a call leaves the store as it is
and adds exactly its request to the pending transitions. -/
theorem request_leaves_state {L : Type} (c : Collaborators L) (cfg : Config L) (k : Call)
    (m : Machine L)
    (hdefer : ∀ (location : Option L) (action : Action) (callback : Bool → Eff (Store L)),
      c.confirmTransitionTo location action cfg.getUserConfirmation callback m.store
        = Except.ok m.store) :
    k.run c cfg m.store = Except.ok m.store ∧
    k.run c cfg m.store = c.confirmTransitionTo (k.request c cfg m.store).location
      (k.request c cfg m.store).action cfg.getUserConfirmation
      (fun ok t => Except.ok ((k.request c cfg m.store).callback ok t)) m.store ∧
    (m.step c cfg (Event.call k)).store = m.store ∧
    (m.step c cfg (Event.call k)).store.history = m.store.history ∧
    (m.step c cfg (Event.call k)).pending = m.pending ++ [k.request c cfg m.store] := by
  refine ⟨?_, run_eq_confirm c cfg k m.store, rfl, rfl, rfl⟩
  rw [run_eq_confirm]
  exact hdefer _ _ _

/-- C14 at a concrete call: `push('/d')` at index 1 of `['/a','/b','/c']`
with a transition manager that keeps the request for later. -/
theorem request_leaves_state_witness :
    (∀ (location : Option String) (action : Action) (callback : Bool → Eff (Store String)),
      deferring.confirmTransitionTo location action sampleConfig.getUserConfirmation callback
        (Machine.mk (sampleBlocked ["/a", "/b", "/c"] 1) []).store
        = Except.ok (Machine.mk (sampleBlocked ["/a", "/b", "/c"] 1) []).store) ∧
    (Call.push (PathArg.str "/d") none "0.k3x9").run deferring sampleConfig
      (Machine.mk (sampleBlocked ["/a", "/b", "/c"] 1) []).store
      = Except.ok (Machine.mk (sampleBlocked ["/a", "/b", "/c"] 1) []).store ∧
    ((Machine.mk (sampleBlocked ["/a", "/b", "/c"] 1) []).step deferring sampleConfig
      (Event.call (Call.push (PathArg.str "/d") none "0.k3x9"))).store.history
      = (sampleBlocked ["/a", "/b", "/c"] 1).history :=
  ⟨fun _ _ _ => rfl,
    (request_leaves_state deferring sampleConfig (Call.push (PathArg.str "/d") none "0.k3x9")
      (Machine.mk (sampleBlocked ["/a", "/b", "/c"] 1) []) (fun _ _ _ => rfl)).1,
    by decide⟩

/-! ## Algebra of the operations -/

/-- C15: on a stack whose index is in range, two approved `replace` calls that
both build the location `loc` leave the record (entries, index, length,
action, location) exactly as the first of them left it, with `loc` at
`entries[index]`. -/
theorem replace_idempotent {L : Type} (c : Collaborators L) (cfg : Config L)
    (path1 path2 : PathArg) (state1 state2 : Option StateValue) (rnd1 rnd2 : String)
    (s : Store L) (loc : L)
    (hlo : 0 ≤ s.history.index) (hhi : s.history.index < (s.history.entries.length : Int))
    (h1 : newLocation c cfg path1 state1 rnd1 s = loc)
    (h2 : newLocation c cfg path2 state2 rnd2 (replaceCallback loc true s) = loc)
    (happ1 : Resolves c cfg (some loc) Action.REPLACE s true)
    (happ2 : Resolves c cfg (some loc) Action.REPLACE (replaceCallback loc true s) true) :
    ∃ t1 t2 : Store L,
      replace c cfg path1 state1 rnd1 s = Except.ok t1 ∧
      replace c cfg path2 state2 rnd2 t1 = Except.ok t2 ∧
      t2.history = t1.history ∧
      getAt t2.history.entries t2.history.index = some loc ∧
      t2.history.index = s.history.index ∧
      t2.history.entries.length = s.history.entries.length ∧
      t2.history.action = Action.REPLACE ∧
      t2.history.location = some loc := by
  refine ⟨replaceCallback loc true s, replaceCallback loc true (replaceCallback loc true s),
    ?_, ?_, ?_⟩
  · simp only [replace, h1]
    exact happ1 _
  · simp only [replace, h2]
    exact happ2 _
  · have hl := length_arraySet s.history.entries s.history.index (some loc) hlo hhi
    have hh : (replaceCallback loc true (replaceCallback loc true s)).history
        = (replaceCallback loc true s).history := by
      rw [replaceCallback_history loc (replaceCallback loc true s), replaceCallback_history loc s]
      simp only [arraySet_arraySet _ _ _ hlo hhi]
    rw [hh, replaceCallback_history]
    exact ⟨rfl, getAt_arraySet_self _ _ _ hlo hhi, rfl, hl, rfl, rfl⟩

/-- C15 at a concrete stack: `replace('/x')` twice at index 1 of
`['/a','/b','/c']`. -/
theorem replace_idempotent_witness :
    (0 : Int) ≤ (sampleStore ["/a", "/b", "/c"] 1).history.index ∧
    (sampleStore ["/a", "/b", "/c"] 1).history.index
      < ((sampleStore ["/a", "/b", "/c"] 1).history.entries.length : Int) ∧
    ∃ t1 t2 : Store String,
      replace sample sampleConfig (PathArg.str "/x") none "0.k3x9"
        (sampleStore ["/a", "/b", "/c"] 1) = Except.ok t1 ∧
      replace sample sampleConfig (PathArg.str "/x") none "0.p81z" t1 = Except.ok t2 ∧
      t2.history = t1.history ∧
      getAt t2.history.entries t2.history.index = some "/x" ∧
      t2.history.index = 1 ∧
      t2.history.entries.length = 3 ∧
      t2.history.action = Action.REPLACE ∧
      t2.history.location = some "/x" :=
  ⟨by decide, by decide,
    replace_idempotent sample sampleConfig (PathArg.str "/x") (PathArg.str "/x") none none
      "0.k3x9" "0.p81z" (sampleStore ["/a", "/b", "/c"] 1) "/x" (by decide) (by decide)
      rfl rfl (fun _ => rfl) (fun _ => rfl)⟩

/-- C16: `goBack` is `go(-1)` and `goForward` is `go(1)`, as functions of the
state and of the transition manager, and their requests are the same; on a
well-formed stack an approved `goBack` ends with action `POP`, at index
`index - 1` with location `entries[index - 1]` when `index > 0`, and at
index 0 when `index = 0`. -/
theorem goBack_goForward {L : Type} (c : Collaborators L) (cfg : Config L) (s : Store L)
    (hlen : s.history.length = s.history.entries.length)
    (hhi : s.history.index < (s.history.length : Int))
    (happ : ∀ (location : Option L), Resolves c cfg location Action.POP s true) :
    goBack c cfg = go c cfg (-1) ∧
    goForward c cfg = go c cfg 1 ∧
    Call.goBack.request c cfg s = (Call.go (-1)).request c cfg s ∧
    Call.goForward.request c cfg s = (Call.go 1).request c cfg s ∧
    ∃ t : Store L, goBack c cfg s = Except.ok t ∧
      t.history.action = Action.POP ∧
      (0 < s.history.index →
        t.history.index = s.history.index - 1 ∧
        t.history.location = getAt s.history.entries (s.history.index - 1)) ∧
      (s.history.index = 0 → t.history.index = 0) := by
  refine ⟨rfl, rfl, rfl, rfl,
    goCallback (getAt s.history.entries (goIndex s.history (-1))) (goIndex s.history (-1)) true s,
    happ _ _, ?_⟩
  rw [goCallback_true_history]
  refine ⟨rfl, ?_, ?_⟩
  · intro hpos
    have e : goIndex s.history (-1) = s.history.index - 1 := by
      simp only [goIndex, clamp]
      omega
    simp only [e, and_self]
  · intro hz
    simp only [goIndex, clamp]
    omega

/-- C16, the scenario of the spec: from `['/a','/b']` at index 1, `goBack()`
ends at index 0 with action `POP` and the location of `/a`. -/
theorem goBack_goForward_witness :
    (sampleStore ["/a", "/b"] 1).history.length
      = (sampleStore ["/a", "/b"] 1).history.entries.length ∧
    (sampleStore ["/a", "/b"] 1).history.index
      < ((sampleStore ["/a", "/b"] 1).history.length : Int) ∧
    (goBack sample sampleConfig (sampleStore ["/a", "/b"] 1)).toOption.map
        (fun t => t.history)
      = some { length := 2
               action := Action.POP
               location := some "/a"
               index := 0
               entries := [some "/a", some "/b"] } ∧
    ∃ t : Store String, goBack sample sampleConfig (sampleStore ["/a", "/b"] 1) = Except.ok t ∧
      t.history.action = Action.POP ∧
      ((0 : Int) < 1 →
        t.history.index = 1 - 1 ∧
        t.history.location = getAt [some "/a", some "/b"] (1 - 1)) ∧
      ((1 : Int) = 0 → t.history.index = 0) :=
  ⟨by decide, by decide, by decide,
    (goBack_goForward sample sampleConfig (sampleStore ["/a", "/b"] 1)
      (by decide) (by decide) (fun _ _ => rfl)).2.2.2.2⟩

/-! ## The default confirmation function -/

/-- C17: the default of `getUserConfirmation` is `getConfirmation` on the host
environment. Without `window.confirm`, `getConfirmation` throws the
configuration error of `invariant` and never invokes the callback: whatever
the callback is, the outcome is that one error and the state at the throw is
the state received, so a callback that records its calls has recorded none,
and a callback that would throw an error of its own has not thrown it. With
`window.confirm`, `getConfirmation` is the callback applied to the answer of
`window.confirm(message)`: a callback that records its calls has recorded
exactly that one answer, also when it throws. -/
theorem getConfirmation_spec {σ L : Type} (c : Collaborators L)
    (windowConfirm : String → Bool) (message : String)
    (callback : Bool → Eff σ) (s : σ) (log : List Bool) :
    (config c ({} : Props L)).getUserConfirmation
      = getConfirmation c.hasConfirm c.windowConfirm ∧
    getConfirmation false windowConfirm message callback s
      = Except.error (invariantMessage, s) ∧
    getConfirmation false windowConfirm message recordAnswer log
      = Except.error (invariantMessage, log) ∧
    getConfirmation false windowConfirm message recordAndThrow log
      = Except.error (invariantMessage, log) ∧
    getConfirmation true windowConfirm message callback s
      = callback (windowConfirm message) s ∧
    getConfirmation true windowConfirm message recordAnswer log
      = Except.ok (log ++ [windowConfirm message]) ∧
    getConfirmation true windowConfirm message recordAndThrow log
      = Except.error ("callback invoked", log ++ [windowConfirm message]) := by
  refine ⟨rfl, ?_, ?_, ?_, ?_, ?_, ?_⟩
  · simp only [getConfirmation, Bool.false_eq_true, if_false]
  · simp only [getConfirmation, Bool.false_eq_true, if_false]
  · simp only [getConfirmation, Bool.false_eq_true, if_false]
  · simp only [getConfirmation, if_true]
  · simp only [getConfirmation, if_true, recordAnswer]
  · simp only [getConfirmation, if_true, recordAndThrow]

/-! ## Navigation after navigation -/

theorem canGo_eq_true {L : Type} (h : History L) (n : Int) :
    canGo h n = true ↔ 0 ≤ h.index + n ∧ h.index + n < (h.entries.length : Int) := by
  simp only [canGo, Bool.and_eq_true, decide_eq_true_eq, ge_iff_le]

/-- C18: on a well-formed stack, an approved `go(n)` ends at `index + n`
exactly when `canGo(n)` is true; it ends at 0 when `index + n < 0` and at
`length - 1` when `index + n >= length`. -/
theorem canGo_unclamped {L : Type} (c : Collaborators L) (cfg : Config L) (n : Int)
    (s : Store L)
    (hlen : s.history.length = s.history.entries.length)
    (hlo : 0 ≤ s.history.index) (hhi : s.history.index < (s.history.length : Int))
    (happ : Resolves c cfg (getAt s.history.entries (goIndex s.history n)) Action.POP s true) :
    ∃ t : Store L, go c cfg n s = Except.ok t ∧
      (canGo s.history n = true ↔ t.history.index = s.history.index + n) ∧
      (s.history.index + n < 0 → canGo s.history n = false ∧ t.history.index = 0) ∧
      ((s.history.length : Int) ≤ s.history.index + n →
        canGo s.history n = false ∧ t.history.index = (s.history.length : Int) - 1) := by
  refine ⟨goCallback (getAt s.history.entries (goIndex s.history n)) (goIndex s.history n) true s,
    happ _, ?_⟩
  rw [goCallback_true_history]
  have hc := canGo_eq_true s.history n
  have hf : canGo s.history n = false ↔
      ¬ (0 ≤ s.history.index + n ∧ s.history.index + n < (s.history.entries.length : Int)) := by
    rw [← hc]
    simp
  simp only [goIndex, clamp, hc, hf]
  refine ⟨?_, ?_, ?_⟩
  · constructor
    · intro h; omega
    · intro h; omega
  · intro h
    exact ⟨by omega, by omega⟩
  · intro h
    exact ⟨by omega, by omega⟩

/-- C18 at a concrete stack: `go(100)` at index 0 of three entries. -/
theorem canGo_unclamped_witness :
    (sampleStore ["/a", "/b", "/c"] 0).history.length
      = (sampleStore ["/a", "/b", "/c"] 0).history.entries.length ∧
    (0 : Int) ≤ (sampleStore ["/a", "/b", "/c"] 0).history.index ∧
    (sampleStore ["/a", "/b", "/c"] 0).history.index
      < ((sampleStore ["/a", "/b", "/c"] 0).history.length : Int) ∧
    canGo (sampleStore ["/a", "/b", "/c"] 0).history 100 = false ∧
    ∃ t : Store String,
      go sample sampleConfig 100 (sampleStore ["/a", "/b", "/c"] 0) = Except.ok t ∧
      (canGo (sampleStore ["/a", "/b", "/c"] 0).history 100 = true ↔
        t.history.index = 0 + 100) ∧
      ((0 : Int) + 100 < 0 →
        canGo (sampleStore ["/a", "/b", "/c"] 0).history 100 = false ∧ t.history.index = 0) ∧
      ((3 : Int) ≤ 0 + 100 →
        canGo (sampleStore ["/a", "/b", "/c"] 0).history 100 = false ∧
          t.history.index = (3 : Int) - 1) :=
  ⟨by decide, by decide, by decide, by decide,
    canGo_unclamped sample sampleConfig 100 (sampleStore ["/a", "/b", "/c"] 0)
      (by decide) (by decide) (by decide) (fun _ => rfl)⟩

/-- C19: on a well-formed stack with `canGo(n)` true, an approved `go(n)`
followed by an approved `go(-n)` returns normally, passes through index
`index + n`, and ends with the original index and location, the same entries
and length, and action `POP`. There is a stack and an `n` with `canGo(n)`
false where the round trip does not restore the index: `go(5)` then `go(-5)`
from index 1 of three entries ends at index 0. -/
theorem go_round_trip {L : Type} (c : Collaborators L) (cfg : Config L) (n : Int)
    (s : Store L) (hwf : WellFormed s.history) (hcan : canGo s.history n = true)
    (happ : ∀ (location : Option L) (action : Action) (t : Store L),
      t.prompt = s.prompt → Resolves c cfg location action t true) :
    (∃ t1 t2 : Store L, go c cfg n s = Except.ok t1 ∧ go c cfg (-n) t1 = Except.ok t2 ∧
      t1.history.index = s.history.index + n ∧
      t2.history.index = s.history.index ∧
      t2.history.location = s.history.location ∧
      t2.history.entries = s.history.entries ∧
      t2.history.length = s.history.length ∧
      t2.history.action = Action.POP) ∧
    (canGo (sampleStore ["/a", "/b", "/c"] 1).history 5 = false ∧
      ∃ t1 t2 : Store String,
        go sample sampleConfig 5 (sampleStore ["/a", "/b", "/c"] 1) = Except.ok t1 ∧
        go sample sampleConfig (-5) t1 = Except.ok t2 ∧
        t2.history.index = 0 ∧
        t2.history.index ≠ (sampleStore ["/a", "/b", "/c"] 1).history.index) := by
  obtain ⟨hlen, h0, h1, hloc⟩ := hwf
  have hc := (canGo_eq_true s.history n).mp hcan
  have e1 : goIndex s.history n = s.history.index + n := by
    simp only [goIndex, clamp]
    omega
  constructor
  · refine ⟨goCallback (getAt s.history.entries (goIndex s.history n)) (goIndex s.history n)
        true s, ?_, happ _ _ s rfl _, ?_⟩
    · exact goCallback (getAt s.history.entries s.history.index) s.history.index true
        (goCallback (getAt s.history.entries (goIndex s.history n)) (goIndex s.history n)
          true s)
    · have hh := goCallback_true_history (getAt s.history.entries (goIndex s.history n))
        (goIndex s.history n) s
      have e2 : goIndex (goCallback (getAt s.history.entries (goIndex s.history n))
          (goIndex s.history n) true s).history (-n) = s.history.index := by
        rw [hh]
        simp only [goIndex, clamp, e1] at *
        omega
      have hp := (goCallback_notified (getAt s.history.entries (goIndex s.history n))
        (goIndex s.history n) true s).2
      refine ⟨?_, ?_⟩
      · have hrun := happ
          (getAt (goCallback (getAt s.history.entries (goIndex s.history n))
            (goIndex s.history n) true s).history.entries
            (goIndex (goCallback (getAt s.history.entries (goIndex s.history n))
              (goIndex s.history n) true s).history (-n)))
          Action.POP _ hp
          (fun ok t => Except.ok
            (goCallback
              (getAt (goCallback (getAt s.history.entries (goIndex s.history n))
                (goIndex s.history n) true s).history.entries
                (goIndex (goCallback (getAt s.history.entries (goIndex s.history n))
                  (goIndex s.history n) true s).history (-n)))
              (goIndex (goCallback (getAt s.history.entries (goIndex s.history n))
                (goIndex s.history n) true s).history (-n)) ok t))
        simp only [go]
        rw [hrun, e2, hh]
      · simp only [goCallback_true_history, and_true, true_and]
        exact ⟨e1, hloc.symm, hlen.symm⟩
  · exact ⟨by decide,
      goCallback (getAt (sampleStore ["/a", "/b", "/c"] 1).history.entries 2) 2 true
        (sampleStore ["/a", "/b", "/c"] 1),
      goCallback (some "/a") 0 true
        (goCallback (getAt (sampleStore ["/a", "/b", "/c"] 1).history.entries 2) 2 true
          (sampleStore ["/a", "/b", "/c"] 1)),
      rfl, rfl, by decide, by decide⟩

/-- C19 at a concrete stack: `go(2)` then `go(-2)` from index 0 of
`['/a','/b','/c']`. -/
theorem go_round_trip_witness :
    WellFormed (sampleStore ["/a", "/b", "/c"] 0).history ∧
    canGo (sampleStore ["/a", "/b", "/c"] 0).history 2 = true ∧
    ∃ t1 t2 : Store String,
      go sample sampleConfig 2 (sampleStore ["/a", "/b", "/c"] 0) = Except.ok t1 ∧
      go sample sampleConfig (-2) t1 = Except.ok t2 ∧
      t1.history.index = 0 + 2 ∧
      t2.history.index = 0 ∧
      t2.history.location = some "/a" ∧
      t2.history.entries = [some "/a", some "/b", some "/c"] ∧
      t2.history.length = 3 ∧
      t2.history.action = Action.POP :=
  ⟨by decide, by decide,
    (go_round_trip sample sampleConfig 2 (sampleStore ["/a", "/b", "/c"] 0)
      (by decide) (by decide)
      (fun location action t ht =>
        resolves_spec_unblocked sample sampleConfig true rfl t ht location action)).1⟩

/-- C20: after an approved `push` on a well-formed stack the index is the
last one (`length - 1`): `canGo(1)` is false and an approved `goForward`
keeps the index, `canGo(-1)` is true and an approved `goBack` ends at the
index and the current location of before the push. -/
theorem push_lands_on_tail {L : Type} (c : Collaborators L) (cfg : Config L) (path : PathArg)
    (state : Option StateValue) (rnd : String) (s : Store L)
    (hwf : WellFormed s.history)
    (happ : ∀ (location : Option L) (action : Action) (t : Store L),
      t.prompt = s.prompt → Resolves c cfg location action t true) :
    ∃ t : Store L, push c cfg path state rnd s = Except.ok t ∧
      t.history.index = (t.history.length : Int) - 1 ∧
      canGo t.history 1 = false ∧
      canGo t.history (-1) = true ∧
      (∃ u : Store L, goForward c cfg t = Except.ok u ∧ u.history.index = t.history.index) ∧
      (∃ v : Store L, goBack c cfg t = Except.ok v ∧
        v.history.index = s.history.index ∧
        v.history.location = s.history.location) := by
  obtain ⟨hlen, h0, h1, hloc⟩ := hwf
  have hr : InRange s.history := ⟨h0, by omega⟩
  have he := pushCallback_entries (newLocation c cfg path state rnd s) s hr
  obtain ⟨fi, _, _, fn⟩ := pushCallback_fields (newLocation c cfg path state rnd s) s
  have hp := (pushCallback_notified (newLocation c cfg path state rnd s) s).2
  have hk : (s.history.index + 1).toNat ≤ s.history.entries.length := by omega
  have hcard : (pushCallback (newLocation c cfg path state rnd s) true s).history.entries.length
      = (s.history.index + 1).toNat + 1 := by
    rw [he]
    simp [List.length_take, hk]
  have hcan1 : canGo (pushCallback (newLocation c cfg path state rnd s) true s).history 1
      = false := by
    have hno : ¬ (canGo (pushCallback (newLocation c cfg path state rnd s) true s).history 1
        = true) := by
      rw [canGo_eq_true, fi, hcard]
      omega
    simpa using hno
  have hcan2 : canGo (pushCallback (newLocation c cfg path state rnd s) true s).history (-1)
      = true := by
    rw [canGo_eq_true, fi, hcard]
    omega
  have ef : goIndex (pushCallback (newLocation c cfg path state rnd s) true s).history 1
      = (pushCallback (newLocation c cfg path state rnd s) true s).history.index := by
    simp only [goIndex, clamp, fi, hcard]
    omega
  have eb : goIndex (pushCallback (newLocation c cfg path state rnd s) true s).history (-1)
      = s.history.index := by
    simp only [goIndex, clamp, fi, hcard]
    omega
  refine ⟨pushCallback (newLocation c cfg path state rnd s) true s, happ _ _ s rfl _,
    by rw [fi, fn, hcard]; omega, hcan1, hcan2, ?_, ?_⟩
  · refine ⟨_, happ _ _ _ hp _, ?_⟩
    rw [goCallback_true_history]
    exact ef
  · refine ⟨_, happ _ _ _ hp _, ?_⟩
    rw [goCallback_true_history]
    refine ⟨eb, ?_⟩
    simp only [eb, he, hloc]
    have hcast : s.history.index < (((s.history.index + 1).toNat : Nat) : Int) := by omega
    exact getAt_take_append_lt _ _ _ _ hk hcast

/-- C20 at a concrete stack: `push('/d')` at index 1 of `['/a','/b','/c']`. -/
theorem push_lands_on_tail_witness :
    WellFormed (sampleStore ["/a", "/b", "/c"] 1).history ∧
    ∃ t : Store String,
      push sample sampleConfig (PathArg.str "/d") none "0.k3x9"
        (sampleStore ["/a", "/b", "/c"] 1) = Except.ok t ∧
      t.history.index = (t.history.length : Int) - 1 ∧
      canGo t.history 1 = false ∧
      canGo t.history (-1) = true ∧
      (∃ u : Store String,
        goForward sample sampleConfig t = Except.ok u ∧ u.history.index = t.history.index) ∧
      (∃ v : Store String, goBack sample sampleConfig t = Except.ok v ∧
        v.history.index = 1 ∧
        v.history.location = some "/b") :=
  ⟨by decide,
    push_lands_on_tail sample sampleConfig (PathArg.str "/d") none "0.k3x9"
      (sampleStore ["/a", "/b", "/c"] 1) (by decide)
      (fun location action t ht =>
        resolves_spec_unblocked sample sampleConfig true rfl t ht location action)⟩

end MemoryHistory
